import Mathlib

set_option autoImplicit false

/-
Verification development for the WordPress-to-Convex migration pipeline of the
seo-website repository.

Shallow embedding conventions:
  - the remote content store (Convex) is modelled as explicit state
    (lists of documents with numeric ids); its query/mutation handlers from
    convex/posts.ts and the categories module are modelled as pure functions;
  - the external image service (Cloudflare Images) is a parameter of the
    model: an upload oracle that may fail, and a delivery-URL resolver
    (the client bindings live outside src, the spec treats the service as
    an opaque remote contract);
  - JavaScript strings are Lean Strings; character classes and the two
    regular expressions of the scripts are implemented over List Char.
    JS toLowerCase is modelled on ASCII (non-ASCII letters are replaced by
    a hyphen by the following character-class substitution either way);
  - remote calls and upload attempts are recorded in an event trace;
    console output is not part of the model state except for the
    classifier skip log, which one claim is about.
-/

/-! ## Slug derivation (scripts/migrate-wordpress.ts, getOrCreateCategory) -/

/-- ASCII lower-casing, the effect of JS `toLowerCase` on ASCII input. -/
def toLowerModel (c : Char) : Char :=
  if 65 ≤ c.toNat ∧ c.toNat ≤ 90 then Char.ofNat (c.toNat + 32) else c

/-- Membership in the character class `[a-z0-9]` of the slug regex. -/
def isSlugChar (c : Char) : Bool :=
  (97 ≤ c.toNat && c.toNat ≤ 122) || (48 ≤ c.toNat && c.toNat ≤ 57)

/-- The substitution `replace(/[^a-z0-9]+/g, '-')`: each maximal run of
characters outside `[a-z0-9]` becomes a single hyphen.  The Boolean flag
records whether the scan is inside such a run. -/
def collapseAux : Bool → List Char → List Char
  | _, [] => []
  | inRun, c :: cs =>
    if isSlugChar c then c :: collapseAux false cs
    else if inRun then collapseAux true cs
    else '-' :: collapseAux true cs

/-- The substitution `replace(/^-+|-+$/g, '')`: strip the leading and the
trailing run of hyphens. -/
def stripHyphens (l : List Char) : List Char :=
  ((l.dropWhile (· == '-')).reverse.dropWhile (· == '-')).reverse

/-- Slug derivation from `getOrCreateCategory`:
`categoryName.toLowerCase().replace(/[^a-z0-9]+/g, '-').replace(/^-+|-+$/g, '')`. -/
def slugify (s : String) : String :=
  ⟨stripHyphens (collapseAux false (s.data.map toLowerModel))⟩

/-- Canonical slug form: characters in `[a-z0-9-]`, no leading or trailing
hyphen, no two consecutive hyphens. -/
def isSlugB (s : String) : Bool :=
  s.data.all (fun c => isSlugChar c || c == '-')
    && s.data.head? != some '-'
    && s.data.getLast? != some '-'
    && (s.data.zip s.data.tail).all (fun p => !(p.1 == '-' && p.2 == '-'))

/-! ## The image-source regular expression and URL replacement
(scripts/migrate-wordpress.ts, convertContentToMarkdown) -/

/-- Pattern character match for `new RegExp(oldUrl, 'g')`: a dot in the
pattern matches any character, every other character matches itself.  This
is the exact matching semantics of the RegExp built from a URL that is
regexSafe, i.e. contains no metacharacter other than the dot; statements
about URLs outside that class (where a quantifier, group, class or escape
would change or break the compiled pattern) carry regexSafe as an explicit
proviso. -/
def charMatch (p c : Char) : Bool := p == '.' || p == c

/-- The regular-expression metacharacters other than the dot.  A pattern
free of them compiles to a sequence of literal characters and dot
wildcards, which is precisely what charMatch implements. -/
def regexMeta : List Char :=
  ['\\', '^', '$', '*', '+', '?', '(', ')', '[', ']', '\x7b', '\x7d', '|']

/-- The URL contains no regular-expression metacharacter other than the
dot, so `new RegExp(url, 'g')` matches exactly as the charMatch model. -/
def regexSafe (u : String) : Bool := u.data.all fun c => !(regexMeta.contains c)

/-- The pattern (with dot wildcards) matches the text at position i. -/
def matchesAtB (pat s : List Char) (i : Nat) : Bool :=
  (List.range pat.length).all fun k =>
    match pat[k]?, s[i + k]? with
    | some p, some c => charMatch p c
    | _, _ => false

/-- Literal (character-for-character) occurrence of u in s at position i. -/
def occursAtB (u s : List Char) (i : Nat) : Bool :=
  (List.range u.length).all fun k => u[k]? == s[i + k]?

/-- u occurs literally somewhere in s. -/
def containsSubB (u s : List Char) : Bool :=
  (List.range (s.length + 1)).any fun i => occursAtB u s i

/-- One pass of `updatedHtml.replace(new RegExp(oldUrl, 'g'), newUrl)`:
scan left to right, replace each non-overlapping leftmost match.  The fuel
argument bounds the recursion; it is set to the text length, which suffices
for a non-empty pattern. -/
def replAux (pat rep : List Char) : Nat → List Char → List Char
  | 0, s => s
  | _ + 1, [] => []
  | fuel + 1, c :: t =>
    if matchesAtB pat (c :: t) 0 then rep ++ replAux pat rep fuel ((c :: t).drop pat.length)
    else c :: replAux pat rep fuel t

/-- Global regex replacement of one URL; an empty pattern is left alone
(the extracted URLs are never empty). -/
def replaceG (pat rep s : List Char) : List Char :=
  if pat = [] then s else replAux pat rep s.length s

/-- String-level wrapper for one `replace(new RegExp(oldUrl,'g'), newUrl)`. -/
def replaceUrlG (s pat rep : String) : String := ⟨replaceG pat.data rep.data s.data⟩

/-! Extraction of image URLs with the regex of the migration script,
written with its exec semantics spelled out:
match the literal characters of the img-tag opener, then at least one
character that is not a closing angle bracket (greedy, so the rightmost
viable split is taken), then the literal src attribute opener, then a
non-empty capture of characters that are neither a double quote nor a
closing angle bracket, then a closing double quote.  Scanning resumes
after the closing quote of each match. -/

/-- The literal lit occurs character-for-character at position i of s. -/
def litAt (lit s : List Char) (i : Nat) : Bool :=
  (List.range lit.length).all fun k => lit[k]? == s[i + k]?

/-- Index of the first closing angle bracket at or after position i
(or the text length). -/
def runEnd (s : List Char) (i : Nat) : Nat :=
  i + ((s.drop i).takeWhile (fun c => c != '>')).length

/-- Length of the capture group run at position j: characters that are
neither a double quote nor a closing angle bracket. -/
def capLen (s : List Char) (j : Nat) : Nat :=
  ((s.drop j).takeWhile (fun c => c != '"' && c != '>')).length

/-- Try the literal src attribute opener at position k of s; on success
return the capture start and length. -/
def trySrc (s : List Char) (k : Nat) : Option (Nat × Nat) :=
  if litAt "src=\"".data s k then
    let l := capLen s (k + 5)
    if 0 < l && s[k + 5 + l]? == some '"' then some (k + 5, l) else none
  else none

/-- Search the split point k downward from base + d to base (greedy
backtracking of the one-or-more non-bracket characters). -/
def searchKDesc (s : List Char) (base : Nat) : Nat → Option (Nat × Nat)
  | 0 => trySrc s base
  | d + 1 =>
    match trySrc s (base + d + 1) with
    | some r => some r
    | none => searchKDesc s base d

/-- Attempt the whole img regex at position i; on success return the
capture start and length. -/
def tryImgAt (s : List Char) (i : Nat) : Option (Nat × Nat) :=
  if litAt "<img".data s i then
    let e := runEnd s (i + 4)
    if i + 10 ≤ e then searchKDesc s (i + 5) (e - 5 - (i + 5)) else none
  else none

/-- The exec loop of the global regex: scan every start position from the
current one; after a match, resume after its closing quote. -/
def scanImgs (s : List Char) : Nat → Nat → List (List Char)
  | 0, _ => []
  | fuel + 1, pos =>
    if s.length ≤ pos then []
    else
      match tryImgAt s pos with
      | some (a, l) => ((s.drop a).take l) :: scanImgs s fuel (a + l + 1)
      | none => scanImgs s fuel (pos + 1)

/-- All image URLs captured by the img regex over the whole text, in match
order (the while loop over `imgRegex.exec(html)`). -/
def extractImageUrls (html : String) : List String :=
  (scanImgs html.data (html.data.length + 1) 0).map fun l => ⟨l⟩

/-! ## The content store (convex/posts.ts and the categories module) -/

/-- A post document as inserted by the create handler of convex/posts.ts
(the seo object is flattened into seo-prefixed fields). -/
structure PostDoc where
  id : Nat
  title : String
  slug : String
  content : String
  excerpt : Option String
  featuredImage : Option String
  categoryId : Option Nat
  authorId : Option String
  authorName : String
  status : String
  publishedAt : Option Nat
  scheduledFor : Option Nat
  modifiedAt : Nat
  seoMetaTitle : Option String
  seoMetaDescription : Option String
  seoOgImage : Option String
  seoNoindex : Option Bool
  relatedPostIds : Option (List Nat)
deriving Repr, DecidableEq

/-- Arguments of the create mutation of convex/posts.ts. -/
structure PostArgs where
  title : String
  slug : String
  content : String
  excerpt : Option String
  featuredImage : Option String
  categoryId : Option Nat
  authorId : Option String
  authorName : String
  status : String
  scheduledFor : Option Nat
  seoMetaTitle : Option String
  seoMetaDescription : Option String
  seoOgImage : Option String
  seoNoindex : Option Bool
  relatedPostIds : Option (List Nat)
deriving Repr, DecidableEq

/-- A category document of the categories module. -/
structure CatDoc where
  id : Nat
  name : String
  slug : String
  description : Option String
deriving Repr, DecidableEq

/-- The by_slug index query `.first()` of posts.getBySlug and of the
existence check inside posts.create: the first stored document whose slug
field equals the argument. -/
def postsGetBySlug (posts : List PostDoc) (slug : String) : Option PostDoc :=
  posts.find? fun p => p.slug == slug

/-- The by_slug index query of categories.getBySlug and of the existence
check inside categories.create. -/
def catGetBySlug (cats : List CatDoc) (slug : String) : Option CatDoc :=
  cats.find? fun c => c.slug == slug

/-- The create mutation handler of convex/posts.ts: throw if a document
with the slug exists, otherwise insert one document; publishedAt is set to
now exactly when the status is published.  Returns (result, store, next id);
the store is returned unchanged on a throw. -/
def postsCreate (posts : List PostDoc) (nextId : Nat) (now : Nat) (a : PostArgs) :
    Except String Nat × List PostDoc × Nat :=
  match postsGetBySlug posts a.slug with
  | some _ => (.error ("Post with slug \"" ++ a.slug ++ "\" already exists"), posts, nextId)
  | none =>
    (.ok nextId,
     posts ++ [{ id := nextId, title := a.title, slug := a.slug, content := a.content,
                 excerpt := a.excerpt, featuredImage := a.featuredImage,
                 categoryId := a.categoryId, authorId := a.authorId,
                 authorName := a.authorName, status := a.status,
                 publishedAt := if a.status = "published" then some now else none,
                 scheduledFor := a.scheduledFor, modifiedAt := now,
                 seoMetaTitle := a.seoMetaTitle, seoMetaDescription := a.seoMetaDescription,
                 seoOgImage := a.seoOgImage, seoNoindex := a.seoNoindex,
                 relatedPostIds := a.relatedPostIds }],
     nextId + 1)

/-- The create mutation handler of the categories module: throw if a
category with the slug exists, otherwise insert one. -/
def catCreate (cats : List CatDoc) (nextId : Nat) (name slug : String)
    (description : Option String) : Except String Nat × List CatDoc × Nat :=
  match catGetBySlug cats slug with
  | some _ => (.error ("Category with slug \"" ++ slug ++ "\" already exists"), cats, nextId)
  | none =>
    (.ok nextId, cats ++ [{ id := nextId, name := name, slug := slug,
                            description := description }], nextId + 1)

/-- The updateFeaturedImage mutation handler of convex/posts.ts: throw if
the id is absent, otherwise patch featuredImage and modifiedAt. -/
def postsUpdateFeaturedImage (posts : List PostDoc) (now : Nat) (id : Nat)
    (featuredImage : String) : Except String Nat × List PostDoc :=
  match posts.find? (fun p => p.id == id) with
  | none => (.error "Post not found", posts)
  | some _ =>
    (.ok id,
     posts.map fun p =>
       if p.id == id then { p with featuredImage := some featuredImage, modifiedAt := now } else p)

/-- The whole remote store: both tables and an id supply shared for
simplicity of the model. -/
structure ConvexState where
  posts : List PostDoc
  categories : List CatDoc
  nextId : Nat
deriving Repr, DecidableEq

/-! ## The migration pipeline (the dry-run-capable migrate-wordpress script) -/

/-- External collaborators of the pipeline: the markdown converter
(turndown, which throws only on catastrophic input) and the image store
contract (upload by URL with an alt text, which may fail, and the delivery
URL resolver).  Both live outside the migration script. -/
structure ImportEnv where
  turndown : String → Except String String
  upload : String → String → Except String String
  getImageUrl : String → String → String

/-- Remote calls and the markdown conversion of a post, recorded as an
observable trace (console output is not part of this trace). -/
inductive Event where
  | queryPostBySlug (slug : String)
  | transformContent (title : String)
  | uploadCall (url : String)
  | queryCatBySlug (slug : String)
  | createCat (slug : String)
  | createPost (slug : String)
deriving Repr, DecidableEq

/-- JS `x || d` for an optional string: the default replaces both a missing
and an empty value. -/
def orDefault (o : Option String) (d : String) : String :=
  match o with
  | some s => if s = "" then d else s
  | none => d

/-- JS String startsWith, over the character lists. -/
def strStartsWith (s pre : String) : Bool := s.data.take pre.data.length == pre.data

/-- migrateImage: validate that the URL starts with http, upload, resolve
the large variant; any upload failure is caught and becomes none. -/
def migrateImage (env : ImportEnv) (imageUrl alt : String) :
    Option String × List Event :=
  if ¬ strStartsWith imageUrl "http" then (none, [])
  else
    match env.upload imageUrl alt with
    | .ok imageId => (some (env.getImageUrl imageId "large"), [.uploadCall imageUrl])
    | .error _ => (none, [.uploadCall imageUrl])

/-- JS object upsert `imageMapping[oldUrl] = newUrl`: overwrite in place if
the key exists, else append (string keys keep insertion order). -/
def upsert (l : List (String × String)) (k v : String) : List (String × String) :=
  if l.any (fun p => p.1 == k) then l.map (fun p => if p.1 == k then (k, v) else p)
  else l ++ [(k, v)]

/-- Association lookup in an insertion-ordered mapping. -/
def alookup (l : List (String × String)) (k : String) : Option String :=
  (l.find? (fun p => p.1 == k)).map (·.2)

/-- The image-migration loop of convertContentToMarkdown: for each
extracted URL in order, attempt migration; successes enter the mapping,
failures bump the counter. -/
def imageStep (env : ImportEnv) (title : String)
    (acc : List (String × String) × Nat × List Event) (u : String) :
    List (String × String) × Nat × List Event :=
  match migrateImage env u title with
  | (some newUrl, ev) => (upsert acc.1 u newUrl, acc.2.1, acc.2.2 ++ ev)
  | (none, ev) => (acc.1, acc.2.1 + 1, acc.2.2 ++ ev)

/-- The whole image-migration loop over the extracted URLs. -/
def buildImageMapping (env : ImportEnv) (title : String) (urls : List String) :
    List (String × String) × Nat × List Event :=
  urls.foldl (imageStep env title) ([], 0, [])

/-- One iteration of the replacement loop: substitute one mapping entry. -/
def applyEntry (h : String) (p : String × String) : String := replaceUrlG h p.1 p.2

/-- The replacement loop over `Object.entries(imageMapping)`:
apply the global regex replacement for each entry in insertion order. -/
def applyMapping (mapping : List (String × String)) (html : String) : String :=
  mapping.foldl applyEntry html

/-- convertContentToMarkdown: extract image URLs, migrate them, substitute
the successful ones, then convert to markdown (which may throw). -/
def convertContentToMarkdown (env : ImportEnv) (html title : String) :
    Except String (String × Nat) × List Event :=
  match env.turndown
      (applyMapping (buildImageMapping env title (extractImageUrls html)).1 html) with
  | .ok markdown =>
    (.ok (markdown, (buildImageMapping env title (extractImageUrls html)).2.1),
     Event.transformContent title ::
       (buildImageMapping env title (extractImageUrls html)).2.2)
  | .error e =>
    (.error e,
     Event.transformContent title ::
       (buildImageMapping env title (extractImageUrls html)).2.2)

/-- Injectable remote failures: every awaited store call of the import
loop goes over the network and may throw independently of the handler
semantics.  Each field names the error a given call is to throw, keyed by
the slug the call carries; the all-none instance is the fault-free run. -/
structure RemoteFaults where
  catQuery : String → Option String
  catCreate : String → Option String
  postCreate : String → Option String

/-- The fault-free run: every remote call reaches its handler. -/
def noFaults : RemoteFaults :=
  { catQuery := fun _ => none, catCreate := fun _ => none, postCreate := fun _ => none }

/-- getOrCreateCategory over a run with injectable remote failures: empty
label resolves to none; otherwise derive the slug, query (which may
throw), reuse an existing record, else (outside dry-run) create one (the
mutation call may also throw).  The Except layer carries any throw out to
the per-post handler. -/
def getOrCreateCategoryF (faults : RemoteFaults) (dryRun : Bool) (st : ConvexState)
    (categoryName : String) : Except String (Option Nat) × ConvexState × List Event :=
  if categoryName = "" then (.ok none, st, [])
  else
    match faults.catQuery (slugify categoryName) with
    | some e => (.error e, st, [.queryCatBySlug (slugify categoryName)])
    | none =>
      match catGetBySlug st.categories (slugify categoryName) with
      | some c => (.ok (some c.id), st, [.queryCatBySlug (slugify categoryName)])
      | none =>
        if dryRun then (.ok none, st, [.queryCatBySlug (slugify categoryName)])
        else
          match faults.catCreate (slugify categoryName) with
          | some e => (.error e, st, [.queryCatBySlug (slugify categoryName)])
          | none =>
            match catCreate st.categories st.nextId categoryName (slugify categoryName) none with
            | (.ok id, cats, next) =>
              (.ok (some id), { st with categories := cats, nextId := next },
               [.queryCatBySlug (slugify categoryName), .createCat (slugify categoryName)])
            | (.error e, _, _) => (.error e, st, [.queryCatBySlug (slugify categoryName)])

/-- getOrCreateCategory on a fault-free run. -/
def getOrCreateCategory (dryRun : Bool) (st : ConvexState) (categoryName : String) :
    Except String (Option Nat) × ConvexState × List Event :=
  getOrCreateCategoryF noFaults dryRun st categoryName

/-- A post parsed from the export, as built by parseWordPressXML of the
dry-run-capable script (status is always publish there). -/
structure WordPressPost where
  title : String
  slug : String
  content : String
  excerpt : String
  pubDate : Option String
  author : String
  categories : List String
  featuredImageUrl : Option String
deriving Repr, DecidableEq

/-- The per-run counters of importPosts (its only accumulated state). -/
structure Counters where
  success : Nat
  skip : Nat
  fail : Nat
  imageFail : Nat
deriving Repr, DecidableEq

/-- The excerpt conversion of one post: an empty excerpt is left out,
otherwise it goes through turndown (which may throw). -/
def excerptStage (env : ImportEnv) (post : WordPressPost) : Except String (Option String) :=
  if post.excerpt = "" then .ok none else (env.turndown post.excerpt).map some

/-- The category resolution of one post: the first listed label only, and
only when it is truthy. -/
def categoryStage (faults : RemoteFaults) (dryRun : Bool) (st : ConvexState)
    (post : WordPressPost) : Except String (Option Nat) × ConvexState × List Event :=
  match post.categories.head? with
  | some c => if c = "" then (.ok none, st, []) else getOrCreateCategoryF faults dryRun st c
  | none => (.ok none, st, [])

/-- The featured-image migration of one post: the migrated delivery URL
when the post has one and its upload succeeds, a flag for an upload that
failed, and the trace of the attempt. -/
def featuredStage (env : ImportEnv) (post : WordPressPost) :
    Option String × Bool × List Event :=
  match post.featuredImageUrl with
  | some url =>
    match migrateImage env url post.title with
    | (some newUrl, ev) => (some newUrl, false, ev)
    | (none, ev) => (none, true, ev)
  | none => (none, false, [])

/-- The body of the loop of importPosts for one post, over a run with
injectable remote failures: existence check and skip, dry-run preview,
content transform, excerpt conversion, category resolution, featured-image
migration, create mutation (whose call may throw before the handler runs);
any throw lands in the catch branch which only bumps the failure counter. -/
def processOnePostF (env : ImportEnv) (faults : RemoteFaults) (dryRun : Bool) (now : Nat)
    (st : ConvexState) (cnt : Counters) (post : WordPressPost) :
    ConvexState × Counters × List Event :=
  let ev0 : List Event := [.queryPostBySlug post.slug]
  match postsGetBySlug st.posts post.slug with
  | some _ => (st, { cnt with skip := cnt.skip + 1 }, ev0)
  | none =>
    if dryRun then (st, { cnt with success := cnt.success + 1 }, ev0)
    else
      match convertContentToMarkdown env post.content post.title with
      | (.error _, ev1) => (st, { cnt with fail := cnt.fail + 1 }, ev0 ++ ev1)
      | (.ok (content, imagesFailed), ev1) =>
        match excerptStage env post with
        | .error _ => (st, { cnt with fail := cnt.fail + 1 }, ev0 ++ ev1)
        | .ok excerpt =>
          match categoryStage faults dryRun st post with
          | (.error _, st1, ev2) =>
            (st1, { cnt with fail := cnt.fail + 1 }, ev0 ++ ev1 ++ ev2)
          | (.ok categoryId, st1, ev2) =>
            let fi := featuredStage env post
            let args : PostArgs :=
              { title := post.title, slug := post.slug, content := content,
                excerpt := excerpt, featuredImage := fi.1,
                categoryId := categoryId, authorId := none,
                authorName := post.author, status := "published",
                scheduledFor := none,
                seoMetaTitle := some post.title,
                seoMetaDescription := excerpt.map (fun e => ⟨e.data.take 160⟩),
                seoOgImage := none, seoNoindex := none,
                relatedPostIds := none }
            match faults.postCreate post.slug with
            | some _ =>
              (st1, { cnt with fail := cnt.fail + 1 }, ev0 ++ ev1 ++ ev2 ++ fi.2.2)
            | none =>
              match postsCreate st1.posts st1.nextId now args with
              | (.ok _, posts1, next1) =>
                let cnt1 :=
                  if fi.2.1 || 0 < imagesFailed
                  then { cnt with imageFail := cnt.imageFail + 1 } else cnt
                ({ st1 with posts := posts1, nextId := next1 },
                 { cnt1 with success := cnt1.success + 1 },
                 ev0 ++ ev1 ++ ev2 ++ fi.2.2 ++ [.createPost post.slug])
              | (.error _, _, _) =>
                (st1, { cnt with fail := cnt.fail + 1 }, ev0 ++ ev1 ++ ev2 ++ fi.2.2)

/-- The per-post body on a fault-free run. -/
def processOnePost (env : ImportEnv) (dryRun : Bool) (now : Nat)
    (st : ConvexState) (cnt : Counters) (post : WordPressPost) :
    ConvexState × Counters × List Event :=
  processOnePostF env noFaults dryRun now st cnt post

/-- The loop of importPosts over all parsed posts, with injectable remote
failures. -/
def importPostsF (env : ImportEnv) (faults : RemoteFaults) (dryRun : Bool) (now : Nat) :
    ConvexState → Counters → List WordPressPost → ConvexState × Counters × List Event
  | st, cnt, [] => (st, cnt, [])
  | st, cnt, p :: ps =>
    let r1 := processOnePostF env faults dryRun now st cnt p
    let r2 := importPostsF env faults dryRun now r1.1 r1.2.1 ps
    (r2.1, r2.2.1, r1.2.2 ++ r2.2.2)

/-- The import loop on a fault-free run. -/
def importPosts (env : ImportEnv) (dryRun : Bool) (now : Nat)
    (st : ConvexState) (cnt : Counters) (posts : List WordPressPost) :
    ConvexState × Counters × List Event :=
  importPostsF env noFaults dryRun now st cnt posts

/-! ## The XML reader and record classifier (parseWordPressXML of the
dry-run-capable script) -/

/-- One wp:postmeta element; both the key and the value may be absent. -/
structure WpMeta where
  key : Option String
  value : Option String
deriving Repr, DecidableEq

/-- One category element of an item: its domain attribute and its text
(an absent text is modelled as the empty string, which is treated the same
by every truthiness test downstream). -/
structure WpCat where
  domain : Option String
  text : String
deriving Repr, DecidableEq

/-- One item of the export channel, with the fields the script reads;
each single-element access through the optional chain is an Option. -/
structure WpItem where
  postType : Option String
  status : Option String
  postId : Option String
  attachmentUrl : Option String
  title : Option String
  postName : Option String
  contentEncoded : Option String
  excerptEncoded : Option String
  pubDate : Option String
  creator : Option String
  category : List WpCat
  postmeta : List WpMeta
deriving Repr, DecidableEq

/-- First pass of parseWordPressXML: index every attachment record, post
identifier to URL; a falsy identifier or URL is skipped, a repeated
identifier overwrites the earlier URL. -/
def buildAttachments (items : List WpItem) : List (String × String) :=
  items.foldl
    (fun acc it =>
      if it.postType == some "attachment" then
        match it.postId, it.attachmentUrl with
        | some id, some url => if id = "" ∨ url = "" then acc else upsert acc id url
        | _, _ => acc
      else acc)
    []

/-- Eligibility of an item for import: type tag post and status publish. -/
def isEligible (it : WpItem) : Bool :=
  it.postType == some "post" && it.status == some "publish"

/-- The thumbnail reference: the value of the first wp:postmeta whose key
is the thumbnail key. -/
def thumbIdOf (it : WpItem) : Option String :=
  match it.postmeta.find? (fun m => m.key == some "_thumbnail_id") with
  | some m => m.value
  | none => none

/-- Build the WordPressPost record of an eligible item, resolving the
thumbnail reference through the attachment index (a falsy reference
resolves to nothing). -/
def postOfItem (atts : List (String × String)) (it : WpItem) : WordPressPost :=
  { title := orDefault it.title "Untitled"
    slug := orDefault it.postName ""
    content := orDefault it.contentEncoded ""
    excerpt := orDefault it.excerptEncoded ""
    pubDate := it.pubDate
    author := orDefault it.creator "Admin"
    categories := (it.category.filter (fun c => c.domain == some "category")).map (·.text)
    featuredImageUrl :=
      match thumbIdOf it with
      | some tid => if tid = "" then none else alookup atts tid
      | none => none }

/-- The skip log of the classifier (one line per post-typed item whose
status is not publish; other item types are passed over silently). -/
inductive ParseLog where
  | skipNonPublished (title : String)
deriving Repr, DecidableEq

/-- The body of the second pass of parseWordPressXML for one item: keep an
eligible item as a post, log a skip for a post-typed non-published item,
silently pass over every other item type. -/
def classifyStep (atts : List (String × String))
    (acc : List WordPressPost × List ParseLog) (it : WpItem) :
    List WordPressPost × List ParseLog :=
  if it.postType != some "post" then acc
  else if it.status != some "publish" then
    (acc.1, acc.2 ++ [.skipNonPublished (orDefault it.title "Untitled")])
  else (acc.1 ++ [postOfItem atts it], acc.2)

/-- Second pass of parseWordPressXML over all items.  Returns the posts
and the skip log. -/
def parseWordPressXML (items : List WpItem) :
    List WordPressPost × List ParseLog :=
  let atts := buildAttachments items
  items.foldl (classifyStep atts) ([], [])

/-! ## The featured-image fix script (scripts/fix-featured-images.ts) -/

def RETRY_ATTEMPTS : Nat := 3

def RETRY_DELAY_MS : Nat := 2000

def RATE_LIMIT_DELAY_MS : Nat := 500

/-- Observable actions of the featured-image script: upload attempts
(numbered), sleeps, and the update mutation. -/
inductive FEvent where
  | uploadAttempt (attemptNum : Nat) (url : String)
  | sleep (ms : Nat)
  | updateCall (id : Nat)
deriving Repr, DecidableEq

/-- Its run statistics: counters plus the list of slug-keyed errors. -/
structure FFStats where
  total : Nat
  success : Nat
  skipped : Nat
  failed : Nat
  errors : List (String × String)
deriving Repr, DecidableEq

/-- uploadToCloudflare: try the upload; on failure sleep a fixed delay and
retry, up to the attempt bound, then give up with none.  The upload oracle
is indexed by the attempt number so consecutive attempts may differ. -/
def uploadToCloudflare (upload : String → String → Nat → Except String String)
    (getUrl : String → String → String) (imageUrl filename : String)
    (attemptNum : Nat) : Option String × List FEvent :=
  match upload imageUrl filename attemptNum with
  | .ok imageId => (some (getUrl imageId "large"), [.uploadAttempt attemptNum imageUrl])
  | .error _ =>
    if _h : attemptNum < RETRY_ATTEMPTS then
      match uploadToCloudflare upload getUrl imageUrl filename (attemptNum + 1) with
      | (r, evs) => (r, .uploadAttempt attemptNum imageUrl :: .sleep RETRY_DELAY_MS :: evs)
    else (none, [.uploadAttempt attemptNum imageUrl])
termination_by RETRY_ATTEMPTS - attemptNum

/-- processPost of the featured-image script for one Convex post document:
skip when a featured image is already present (without force) or when the
export has no image for the slug; otherwise upload with retry; a failed
upload is recorded keyed by slug and the post is left alone; a successful
upload patches the post. -/
def processPostFF (upload : String → String → Nat → Except String String)
    (getUrl : String → String → String) (dryRun force : Bool) (now : Nat)
    (featuredImages : List (String × String)) (posts : List PostDoc)
    (stats : FFStats) (post : PostDoc) : List PostDoc × FFStats × List FEvent :=
  if post.featuredImage.isSome && !force then
    (posts, { stats with skipped := stats.skipped + 1 }, [])
  else
    match alookup featuredImages post.slug with
    | none => (posts, { stats with skipped := stats.skipped + 1 }, [])
    | some wordpressImageUrl =>
      if dryRun then (posts, { stats with success := stats.success + 1 }, [])
      else
        let filename :=
          orDefault (wordpressImageUrl.splitOn "/").getLast? (post.slug ++ ".jpg")
        match uploadToCloudflare upload getUrl wordpressImageUrl filename 1 with
        | (none, evs) =>
          (posts,
           { stats with failed := stats.failed + 1,
                        errors := stats.errors ++ [(post.slug, "Failed to upload to Cloudflare")] },
           evs)
        | (some cloudflareUrl, evs) =>
          match postsUpdateFeaturedImage posts now post.id cloudflareUrl with
          | (.ok _, posts1) =>
            (posts1, { stats with success := stats.success + 1 },
             evs ++ [.updateCall post.id, .sleep RATE_LIMIT_DELAY_MS])
          | (.error e, posts1) =>
            (posts1,
             { stats with failed := stats.failed + 1,
                          errors := stats.errors ++ [(post.slug, "Failed to update post: " ++ e)] },
             evs ++ [.updateCall post.id, .sleep RATE_LIMIT_DELAY_MS])

/-! ## Sample data for concrete witnesses -/

/-- An environment whose markdown conversion is the identity and whose
image store rejects every upload. -/
def envNull : ImportEnv :=
  { turndown := fun s => .ok s
    upload := fun _ _ => .error "service unavailable"
    getImageUrl := fun id variant => "https://imagedelivery.net/h/" ++ id ++ "/" ++ variant }

/-- An environment whose image store accepts every upload, echoing the URL
as the image id. -/
def envUp : ImportEnv :=
  { turndown := fun s => .ok s
    upload := fun url _ => .ok ("id-" ++ url)
    getImageUrl := fun id variant => "cdn/" ++ id ++ "/" ++ variant }

/-- A stored post document with slug hello. -/
def docHello : PostDoc :=
  { id := 0, title := "Hello", slug := "hello", content := "body",
    excerpt := none, featuredImage := none, categoryId := none,
    authorId := none, authorName := "Admin", status := "published",
    publishedAt := some 1, scheduledFor := none, modifiedAt := 1,
    seoMetaTitle := none, seoMetaDescription := none, seoOgImage := none,
    seoNoindex := none, relatedPostIds := none }

/-- A store that already holds the hello post. -/
def stHello : ConvexState := { posts := [docHello], categories := [], nextId := 1 }

/-- The empty store. -/
def stEmpty : ConvexState := { posts := [], categories := [], nextId := 0 }

/-- Zeroed counters. -/
def cnt0 : Counters := { success := 0, skip := 0, fail := 0, imageFail := 0 }

/-- A parsed post whose slug collides with the stored hello post. -/
def wpHello : WordPressPost :=
  { title := "Hello", slug := "hello", content := "<p>hi</p>", excerpt := "",
    pubDate := none, author := "Admin", categories := ["Case Studies"],
    featuredImageUrl := none }

/-- Create-mutation arguments for slug hello. -/
def argsHello : PostArgs :=
  { title := "Hello", slug := "hello", content := "body", excerpt := none,
    featuredImage := none, categoryId := none, authorId := none,
    authorName := "Admin", status := "published", scheduledFor := none,
    seoMetaTitle := none, seoMetaDescription := none, seoOgImage := none,
    seoNoindex := none, relatedPostIds := none }

/-- The store after resolving the Case Studies label once from empty. -/
def stCS1 : ConvexState := (getOrCreateCategory false stEmpty "Case Studies").2.1

/-- An upload oracle that fails on every attempt. -/
def uploadFail : String → String → Nat → Except String String :=
  fun _ _ _ => .error "network"

/-- A delivery-URL resolver. -/
def getUrl0 : String → String → String := fun id variant => "cdn/" ++ id ++ "/" ++ variant

/-- Starting statistics of the featured-image script over one post. -/
def ffStats0 : FFStats :=
  { total := 1, success := 0, skipped := 0, failed := 0, errors := [] }

/-- An environment whose markdown conversion throws with one message. -/
def envBoomA : ImportEnv :=
  { turndown := fun _ => .error "boom-alpha"
    upload := fun _ _ => .error "x"
    getImageUrl := fun id variant => id ++ variant }

/-- The same environment except for the text of the thrown message. -/
def envBoomB : ImportEnv :=
  { turndown := fun _ => .error "boom-beta"
    upload := fun _ _ => .error "x"
    getImageUrl := fun id variant => id ++ variant }

/-- A parsed post whose slug is absent from the store. -/
def wpFresh : WordPressPost :=
  { title := "T", slug := "fresh", content := "<p>x</p>", excerpt := "",
    pubDate := none, author := "Admin", categories := [],
    featuredImageUrl := none }

/-- A run in which only the create-post mutation call throws (for example
the network drops after the existence query). -/
def faultsCreate : RemoteFaults :=
  { catQuery := fun _ => none, catCreate := fun _ => none,
    postCreate := fun _ => some "network-down" }

/-- Content with two img tags whose source URLs overlap: the second URL
extends the first. -/
def htmlUV : String := "<img a src=\"httpu\"><img b src=\"httpuv\">"

/-- An environment that uploads both overlapping URLs successfully,
resolving them to two distinct short delivery URLs. -/
def envTwo : ImportEnv :=
  { turndown := fun s => .ok s
    upload := fun url _ => .ok url
    getImageUrl := fun id _ => if id = "httpu" then "AA" else "BB" }

/-- An environment that uploads the short URL but fails on the long one. -/
def envIntf : ImportEnv :=
  { turndown := fun s => .ok s
    upload := fun url _ => if url = "httpu" then .ok "1" else .error "fail"
    getImageUrl := fun _ _ => "AA" }

/-- An environment resolving every upload to the two-letter delivery URL
KM, character-disjoint from the URL httpz. -/
def envUp2 : ImportEnv :=
  { turndown := fun s => .ok s
    upload := fun _ _ => .ok "k"
    getImageUrl := fun _ _ => "KM" }

/-- A post with one inline image whose URL fails validation (no http
prefix), so its migration fails while the post itself goes through. -/
def wpImg : WordPressPost :=
  { title := "T", slug := "img", content := "<img a src=\"x-img\">keep x-img here",
    excerpt := "", pubDate := none, author := "A", categories := [],
    featuredImageUrl := none }

/-- An eligible export item whose thumbnail meta references attachment 9. -/
def itemPost : WpItem :=
  { postType := some "post", status := some "publish", postId := some "1",
    attachmentUrl := none, title := some "P", postName := some "p1",
    contentEncoded := some "hello", excerptEncoded := none, pubDate := none,
    creator := some "A", category := [],
    postmeta := [{ key := some "_thumbnail_id", value := some "9" }] }

/-- The attachment record 9, placed after the post in the export. -/
def itemAtt : WpItem :=
  { postType := some "attachment", status := some "inherit", postId := some "9",
    attachmentUrl := some "http://w/f.jpg", title := some "F",
    postName := some "f", contentEncoded := none, excerptEncoded := none,
    pubDate := none, creator := none, category := [], postmeta := [] }

/-! ## Theorems -/

/-- C1: for every post whose slug already exists in the content store, the
importer increments only the skip counter, leaves the store untouched, and
its whole observable trace is the single existence query: no create
mutation, no content transform, no category resolution, no image upload. -/
theorem importer_skips_existing_slug (env : ImportEnv) (dryRun : Bool) (now : Nat)
    (st : ConvexState) (cnt : Counters) (post : WordPressPost)
    (h : (postsGetBySlug st.posts post.slug).isSome = true) :
    processOnePost env dryRun now st cnt post =
      (st, { cnt with skip := cnt.skip + 1 }, [Event.queryPostBySlug post.slug]) := by
  unfold processOnePost processOnePostF
  cases hp : postsGetBySlug st.posts post.slug with
  | some p => simp
  | none => rw [hp] at h; simp at h

/-- Witness for C1 at a concrete store and post. -/
theorem importer_skips_existing_slug_witness :
    processOnePost envNull false 7 stHello cnt0 wpHello =
      (stHello, { cnt0 with skip := cnt0.skip + 1 }, [Event.queryPostBySlug wpHello.slug]) :=
  importer_skips_existing_slug envNull false 7 stHello cnt0 wpHello (by decide)

/-- C6: the create mutation of the posts module throws (returning the
store unchanged) when a document with the slug exists, inserts exactly one
document with that slug and the fresh id otherwise, and in consequence
preserves distinctness of the stored slugs. -/
theorem postsCreate_unique_slug (posts : List PostDoc) (nextId now : Nat) (a : PostArgs) :
    ((∃ p ∈ posts, p.slug = a.slug) →
        (postsCreate posts nextId now a).1 =
            .error ("Post with slug \"" ++ a.slug ++ "\" already exists") ∧
          (postsCreate posts nextId now a).2.1 = posts) ∧
    ((∀ p ∈ posts, p.slug ≠ a.slug) →
        (postsCreate posts nextId now a).1 = .ok nextId ∧
          ∃ d, (postsCreate posts nextId now a).2.1 = posts ++ [d] ∧
            d.slug = a.slug ∧ d.id = nextId) ∧
    ((posts.map PostDoc.slug).Nodup →
        (((postsCreate posts nextId now a).2.1.map PostDoc.slug)).Nodup) := by
  refine ⟨fun hex => ?_, fun hnone => ?_, fun hnd => ?_⟩
  · obtain ⟨p, hp, hslug⟩ := hex
    have hfind : (postsGetBySlug posts a.slug).isSome = true := by
      unfold postsGetBySlug
      rw [List.find?_isSome]
      exact ⟨p, hp, by simp [hslug]⟩
    unfold postsCreate
    cases hc : postsGetBySlug posts a.slug with
    | some q => simp
    | none => rw [hc] at hfind; simp at hfind
  · have hfind : postsGetBySlug posts a.slug = none := by
      unfold postsGetBySlug
      rw [List.find?_eq_none]
      intro p hp
      simp [hnone p hp]
    unfold postsCreate
    rw [hfind]
    exact ⟨rfl, _, rfl, rfl, rfl⟩
  · unfold postsCreate
    cases hc : postsGetBySlug posts a.slug with
    | some q => simpa using hnd
    | none =>
      have hns : a.slug ∉ posts.map PostDoc.slug := by
        intro hmem
        obtain ⟨p, hp, hps⟩ := List.mem_map.mp hmem
        have := List.find?_eq_none.mp hc p hp
        simp [hps] at this
      simp only [List.map_append, List.map_cons, List.map_nil]
      exact List.Nodup.append hnd (List.nodup_singleton _) (by
        intro x hx hx2
        simp at hx2
        subst hx2
        exact hns hx)

/-- Witness for C6: the duplicate branch at a store holding the hello
slug, and the insert branch at the empty store. -/
theorem postsCreate_unique_slug_witness :
    ((postsCreate [docHello] 1 5 argsHello).1 =
        .error ("Post with slug \"" ++ argsHello.slug ++ "\" already exists") ∧
      (postsCreate [docHello] 1 5 argsHello).2.1 = [docHello]) ∧
    ((postsCreate [] 0 5 argsHello).1 = .ok 0 ∧
      ∃ d, (postsCreate [] 0 5 argsHello).2.1 = [] ++ [d] ∧
        d.slug = argsHello.slug ∧ d.id = 0) := by
  refine ⟨(postsCreate_unique_slug [docHello] 1 5 argsHello).1 ⟨docHello, by simp, by decide⟩, ?_⟩
  exact (postsCreate_unique_slug [] 0 5 argsHello).2.1 (by simp)

/-- Accumulator form of the classifier fold: the posts and skip-log
entries produced by a batch of items append to any starting accumulator. -/
theorem parseFold_eq (atts : List (String × String)) :
    ∀ (items : List WpItem) (acc : List WordPressPost × List ParseLog),
      items.foldl (classifyStep atts) acc =
      (acc.1 ++ (items.filter isEligible).map (postOfItem atts),
       acc.2 ++ (items.filter
          (fun it => it.postType == some "post" && it.status != some "publish")).map
         (fun it => ParseLog.skipNonPublished (orDefault it.title "Untitled"))) := by
  intro items
  induction items with
  | nil => intro acc; simp
  | cons it rest ih =>
    intro acc
    rw [List.foldl_cons, List.filter_cons, List.filter_cons]
    by_cases hpt : it.postType = some "post"
    · by_cases hst : it.status = some "publish"
      · have hstep : classifyStep atts acc it = (acc.1 ++ [postOfItem atts it], acc.2) := by
          simp [classifyStep, hpt, hst]
        have he : isEligible it = true := by simp [isEligible, hpt, hst]
        have hlogc : (it.postType == some "post" && it.status != some "publish") = false := by
          simp [hpt, hst]
        rw [hstep, ih]
        simp [he, hlogc, List.append_assoc]
      · have hstep : classifyStep atts acc it =
            (acc.1, acc.2 ++ [.skipNonPublished (orDefault it.title "Untitled")]) := by
          simp [classifyStep, hpt, hst]
        have he : isEligible it = false := by simp [isEligible, hst]
        have hlogc : (it.postType == some "post" && it.status != some "publish") = true := by
          simp [hpt, hst]
        rw [hstep, ih]
        simp [he, hlogc, List.append_assoc]
    · have hstep : classifyStep atts acc it = acc := by
        simp [classifyStep, hpt]
      have he : isEligible it = false := by simp [isEligible, hpt]
      have hlogc : (it.postType == some "post" && it.status != some "publish") = false := by
        simp [hpt]
      rw [hstep, ih]
      simp [he, hlogc]

/-- C2 (amended): the classifier output is exactly the eligible items
mapped to posts, and the skip log is exactly one line per post-typed
non-published item; items of other types are excluded silently, and the
classifier never aborts. -/
theorem classifier_excludes_ineligible (items : List WpItem) :
    parseWordPressXML items =
      ((items.filter isEligible).map (postOfItem (buildAttachments items)),
       (items.filter
          (fun it => it.postType == some "post" && it.status != some "publish")).map
         (fun it => ParseLog.skipNonPublished (orDefault it.title "Untitled"))) := by
  unfold parseWordPressXML
  rw [parseFold_eq]
  simp

/-- C2 counterexample: a lone attachment item is excluded from the posts
with an empty skip log, so its exclusion is not a skip with a log line. -/
theorem classifier_silent_nonpost_counterexample :
    parseWordPressXML
        [{ postType := some "attachment", status := some "inherit",
           postId := some "11", attachmentUrl := some "http://w/a.jpg",
           title := some "An attachment", postName := some "att",
           contentEncoded := none, excerptEncoded := none, pubDate := none,
           creator := none, category := [], postmeta := [] }] = ([], []) := by
  decide

/-- C9: the category resolver returns nothing for the empty label; for a
non-empty label it returns the reference of the record holding the derived
slug when one exists (store untouched), and a repeated call with the same
label returns the same reference over the same store with a trace holding
only the lookup: no duplicate create. -/
theorem getOrCreateCategory_reuse (st : ConvexState) (label : String) :
    (label = "" → getOrCreateCategory false st label = (.ok none, st, [])) ∧
    (label ≠ "" →
      (∀ c, catGetBySlug st.categories (slugify label) = some c →
          getOrCreateCategory false st label =
            (.ok (some c.id), st, [.queryCatBySlug (slugify label)])) ∧
      (∀ r1 st1 evs1, getOrCreateCategory false st label = (r1, st1, evs1) →
          getOrCreateCategory false st1 label =
            (r1, st1, [.queryCatBySlug (slugify label)]))) := by
  constructor
  · intro h
    simp [getOrCreateCategory, getOrCreateCategoryF, h]
  · intro hne
    constructor
    · intro c hc
      simp [getOrCreateCategory, getOrCreateCategoryF, noFaults, hne, hc]
    · intro r1 st1 evs1 h1
      unfold getOrCreateCategory getOrCreateCategoryF at h1 ⊢
      simp only [noFaults] at h1 ⊢
      rw [if_neg hne] at h1 ⊢
      cases hc : catGetBySlug st.categories (slugify label) with
      | some c =>
        rw [hc] at h1
        simp only [Prod.mk.injEq] at h1
        obtain ⟨h1r, h1st, -⟩ := h1
        subst h1r h1st
        simp [hc]
      | none =>
        rw [hc] at h1
        simp only [Bool.false_eq_true, if_false] at h1
        unfold catCreate at h1
        rw [hc] at h1
        simp only [Prod.mk.injEq] at h1
        obtain ⟨h1r, h1st, -⟩ := h1
        subst h1r h1st
        have hfind : catGetBySlug
            (st.categories ++ [{ id := st.nextId, name := label,
                                 slug := slugify label, description := none }])
            (slugify label) =
            some { id := st.nextId, name := label, slug := slugify label,
                   description := none } := by
          unfold catGetBySlug at hc ⊢
          rw [List.find?_append, hc]
          simp
        simp [hfind]

/-- Witness for C9: resolving the Case Studies label a second time after
the first call created the category reuses it without another create. -/
theorem getOrCreateCategory_reuse_witness :
    getOrCreateCategory false stCS1 "Case Studies" =
      (.ok (some 0), stCS1, [.queryCatBySlug (slugify "Case Studies")]) :=
  ((getOrCreateCategory_reuse stEmpty "Case Studies").2 (by decide)).2
    (.ok (some 0)) stCS1
    [.queryCatBySlug (slugify "Case Studies"), .createCat (slugify "Case Studies")] rfl

/-- C4: when the upload fails on every attempt, the retry wrapper returns
the null signal after exactly three upload attempts with the fixed delay
between consecutive attempts, and the caller of the featured-image script
counts a failure keyed by the slug of the post and leaves the store
unchanged, proceeding without the image. -/
theorem uploadToCloudflare_three_attempts
    (upload : String → String → Nat → Except String String)
    (getUrl : String → String → String) (url : String) (msgs : Nat → String)
    (h : ∀ fn n, upload url fn n = .error (msgs n))
    (force : Bool) (now : Nat) (featuredImages : List (String × String))
    (posts : List PostDoc) (stats : FFStats) (post : PostDoc)
    (hni : post.featuredImage = none)
    (hfi : alookup featuredImages post.slug = some url) :
    (∀ fn, uploadToCloudflare upload getUrl url fn 1 =
      (none, [.uploadAttempt 1 url, .sleep RETRY_DELAY_MS,
              .uploadAttempt 2 url, .sleep RETRY_DELAY_MS,
              .uploadAttempt 3 url])) ∧
    processPostFF upload getUrl false force now featuredImages posts stats post =
      (posts,
       { stats with failed := stats.failed + 1,
                    errors := stats.errors ++ [(post.slug, "Failed to upload to Cloudflare")] },
       [.uploadAttempt 1 url, .sleep RETRY_DELAY_MS,
        .uploadAttempt 2 url, .sleep RETRY_DELAY_MS,
        .uploadAttempt 3 url]) := by
  have key : ∀ fn, uploadToCloudflare upload getUrl url fn 1 =
      (none, [.uploadAttempt 1 url, .sleep RETRY_DELAY_MS,
              .uploadAttempt 2 url, .sleep RETRY_DELAY_MS,
              .uploadAttempt 3 url]) := by
    intro fn
    rw [uploadToCloudflare, h fn 1]
    rw [uploadToCloudflare, h fn 2]
    rw [uploadToCloudflare, h fn 3]
    simp [RETRY_ATTEMPTS]
  refine ⟨key, ?_⟩
  unfold processPostFF
  rw [hni]
  simp only [Option.isSome_none, Bool.false_and, Bool.false_eq_true, if_false]
  rw [hfi]
  simp only [Bool.false_eq_true, if_false]
  rw [key]

/-- Witness for C4: a concrete post, mapping and always-failing oracle. -/
theorem uploadToCloudflare_three_attempts_witness :
    processPostFF uploadFail getUrl0 false false 9
        [("hello", "http://w/img.jpg")] [docHello] ffStats0 docHello =
      ([docHello],
       { ffStats0 with failed := ffStats0.failed + 1,
                       errors := ffStats0.errors ++
                         [(docHello.slug, "Failed to upload to Cloudflare")] },
       [.uploadAttempt 1 "http://w/img.jpg", .sleep RETRY_DELAY_MS,
        .uploadAttempt 2 "http://w/img.jpg", .sleep RETRY_DELAY_MS,
        .uploadAttempt 3 "http://w/img.jpg"]) :=
  (uploadToCloudflare_three_attempts uploadFail getUrl0 "http://w/img.jpg"
    (fun _ => "network") (fun _ _ => rfl) false 9
    [("hello", "http://w/img.jpg")] [docHello] ffStats0 docHello rfl rfl).2

/-- Every event recorded by the image-migration loop is an upload call. -/
theorem buildImageMapping_events_upload (env : ImportEnv) (title : String) :
    ∀ (urls : List String) (acc : List (String × String) × Nat × List Event),
      (∀ ev ∈ acc.2.2, ∃ u, ev = Event.uploadCall u) →
      ∀ ev ∈ (urls.foldl (imageStep env title) acc).2.2, ∃ u, ev = Event.uploadCall u := by
  intro urls
  induction urls with
  | nil => intro acc hacc; simpa using hacc
  | cons u us ih =>
    intro acc hacc
    rw [List.foldl_cons]
    apply ih
    unfold imageStep
    cases hm : migrateImage env u title with
    | mk r ev =>
      have hev : ∀ e ∈ ev, ∃ w, e = Event.uploadCall w := by
        unfold migrateImage at hm
        by_cases hs : strStartsWith u "http"
        · rw [if_neg (by simp [hs])] at hm
          cases hup : env.upload u title with
          | ok i =>
            rw [hup] at hm
            simp only [Prod.mk.injEq] at hm
            obtain ⟨-, hm2⟩ := hm
            subst hm2
            intro e he
            simp at he
            exact ⟨u, he⟩
          | error e0 =>
            rw [hup] at hm
            simp only [Prod.mk.injEq] at hm
            obtain ⟨-, hm2⟩ := hm
            subst hm2
            intro e he
            simp at he
            exact ⟨u, he⟩
        · rw [if_pos (by simp [hs])] at hm
          simp only [Prod.mk.injEq] at hm
          obtain ⟨-, hm2⟩ := hm
          subst hm2
          intro e he
          simp at he
      cases r with
      | some nu =>
        simp only []
        intro e he
        simp at he
        rcases he with he | he
        · exact hacc e he
        · exact hev e he
      | none =>
        simp only []
        intro e he
        simp at he
        rcases he with he | he
        · exact hacc e he
        · exact hev e he

/-- The trace of the content transform consists of the transform marker
and upload calls only. -/
theorem convertContent_events (env : ImportEnv) (html title : String) :
    ∀ ev ∈ (convertContentToMarkdown env html title).2,
      ev = Event.transformContent title ∨ ∃ u, ev = Event.uploadCall u := by
  intro ev hev
  have hup : ∀ e ∈ (buildImageMapping env title (extractImageUrls html)).2.2,
      ∃ u, e = Event.uploadCall u :=
    buildImageMapping_events_upload env title (extractImageUrls html) ([], 0, []) (by simp)
  unfold convertContentToMarkdown at hev
  cases ht : env.turndown
      (applyMapping (buildImageMapping env title (extractImageUrls html)).1 html) with
  | ok md =>
    rw [ht] at hev
    simp only [List.mem_cons] at hev
    rcases hev with hev | hev
    · exact Or.inl hev
    · exact Or.inr (hup ev hev)
  | error e =>
    rw [ht] at hev
    simp only [List.mem_cons] at hev
    rcases hev with hev | hev
    · exact Or.inl hev
    · exact Or.inr (hup ev hev)

/-- C3 counterexample: two runs of the import loop over a post that throws
during the content transform, differing only in the text of the thrown
error, produce identical final stores, counters and traces — so the error
message is not recorded anywhere, let alone keyed by the slug of the post;
the run only counts one failure. -/
theorem import_error_not_recorded_counterexample :
    importPosts envBoomA false 3 stEmpty cnt0 [wpFresh] =
      importPosts envBoomB false 3 stEmpty cnt0 [wpFresh] ∧
    (importPosts envBoomA false 3 stEmpty cnt0 [wpFresh]).2.1.fail = 1 :=
  ⟨rfl, rfl⟩

/-- One unfolding of the import loop: the continuation runs from the state
and counters the per-post step returned, and the traces concatenate. -/
theorem importPostsF_cons (env : ImportEnv) (faults : RemoteFaults) (dryRun : Bool)
    (now : Nat) (st : ConvexState) (cnt : Counters) (post : WordPressPost)
    (rest : List WordPressPost) (st2 : ConvexState) (cnt2 : Counters) (evs : List Event)
    (hstep : processOnePostF env faults dryRun now st cnt post = (st2, cnt2, evs)) :
    importPostsF env faults dryRun now st cnt (post :: rest) =
      ((importPostsF env faults dryRun now st2 cnt2 rest).1,
       (importPostsF env faults dryRun now st2 cnt2 rest).2.1,
       evs ++ (importPostsF env faults dryRun now st2 cnt2 rest).2.2) := by
  have hcons : importPostsF env faults dryRun now st cnt (post :: rest) =
      ((importPostsF env faults dryRun now (processOnePostF env faults dryRun now st cnt post).1
          (processOnePostF env faults dryRun now st cnt post).2.1 rest).1,
       (importPostsF env faults dryRun now (processOnePostF env faults dryRun now st cnt post).1
          (processOnePostF env faults dryRun now st cnt post).2.1 rest).2.1,
       (processOnePostF env faults dryRun now st cnt post).2.2 ++
         (importPostsF env faults dryRun now (processOnePostF env faults dryRun now st cnt post).1
            (processOnePostF env faults dryRun now st cnt post).2.1 rest).2.2) := rfl
  rw [hcons, hstep]

/-- The category resolver never touches the posts store, whatever remote
faults the run injects. -/
theorem getOrCreateCategoryF_posts (faults : RemoteFaults) (dryRun : Bool)
    (st : ConvexState) (name : String) :
    (getOrCreateCategoryF faults dryRun st name).2.1.posts = st.posts := by
  unfold getOrCreateCategoryF
  repeat' split
  all_goals rfl

/-- The trace of the category resolver consists of category lookups and
category creates only. -/
theorem getOrCreateCategoryF_events (faults : RemoteFaults) (dryRun : Bool)
    (st : ConvexState) (name : String) :
    ∀ ev ∈ (getOrCreateCategoryF faults dryRun st name).2.2,
      ev = Event.queryCatBySlug (slugify name) ∨ ev = Event.createCat (slugify name) := by
  intro ev hev
  unfold getOrCreateCategoryF at hev
  repeat' split at hev
  all_goals simp at hev
  all_goals tauto

/-- The category stage never touches the posts store. -/
theorem categoryStage_posts (faults : RemoteFaults) (dryRun : Bool)
    (st : ConvexState) (post : WordPressPost) :
    (categoryStage faults dryRun st post).2.1.posts = st.posts := by
  unfold categoryStage
  split
  · split
    · rfl
    · apply getOrCreateCategoryF_posts
  · rfl

/-- The trace of the category stage consists of category lookups and
category creates only. -/
theorem categoryStage_events (faults : RemoteFaults) (dryRun : Bool)
    (st : ConvexState) (post : WordPressPost) :
    ∀ ev ∈ (categoryStage faults dryRun st post).2.2,
      (∃ s, ev = Event.queryCatBySlug s) ∨ ∃ s, ev = Event.createCat s := by
  intro ev hev
  unfold categoryStage at hev
  split at hev
  · split at hev
    · simp at hev
    · rcases getOrCreateCategoryF_events _ _ _ _ ev hev with h | h
      · exact Or.inl ⟨_, h⟩
      · exact Or.inr ⟨_, h⟩
  · simp at hev

/-- The trace of one image migration consists of upload calls only. -/
theorem migrateImage_events (env : ImportEnv) (url alt : String) :
    ∀ ev ∈ (migrateImage env url alt).2, ∃ u, ev = Event.uploadCall u := by
  intro ev hev
  unfold migrateImage at hev
  split at hev
  · simp at hev
  · split at hev
    all_goals simp at hev
    all_goals exact ⟨url, hev⟩

/-- The trace of the featured-image stage consists of upload calls only. -/
theorem featuredStage_events (env : ImportEnv) (post : WordPressPost) :
    ∀ ev ∈ (featuredStage env post).2.2, ∃ u, ev = Event.uploadCall u := by
  intro ev hev
  unfold featuredStage at hev
  cases hfi : post.featuredImageUrl with
  | none => rw [hfi] at hev; simp at hev
  | some url =>
    rw [hfi] at hev
    simp only [] at hev
    have h := migrateImage_events env url post.title
    cases hm : migrateImage env url post.title with
    | mk r evm =>
      rw [hm] at hev h
      cases r with
      | some nu =>
        simp only [] at hev
        exact h ev hev
      | none =>
        simp only [] at hev
        exact h ev hev

/-- C3 (amended): a throw during the content transform, the excerpt
conversion, the category resolution (its query or its create call), or
the create-post mutation call bumps the failure counter by exactly one;
the posts store is untouched, no create-post mutation fires, and the loop
continues with the remaining posts from the state the step returned — so
no per-post error escapes the import loop; the error text itself is not
retained. -/
theorem import_error_increments_fail_and_continues (env : ImportEnv)
    (faults : RemoteFaults) (now : Nat) (st : ConvexState) (cnt : Counters)
    (post : WordPressPost) (rest : List WordPressPost)
    (hfresh : postsGetBySlug st.posts post.slug = none)
    (herr :
      (∃ e ev1, convertContentToMarkdown env post.content post.title = (.error e, ev1)) ∨
      (∃ md nf ev1 e2,
        convertContentToMarkdown env post.content post.title = (.ok (md, nf), ev1) ∧
        excerptStage env post = .error e2) ∨
      (∃ md nf ev1 ex e3 st3 evc,
        convertContentToMarkdown env post.content post.title = (.ok (md, nf), ev1) ∧
        excerptStage env post = .ok ex ∧
        categoryStage faults false st post = (.error e3, st3, evc)) ∨
      (∃ md nf ev1 ex cid st3 evc e4,
        convertContentToMarkdown env post.content post.title = (.ok (md, nf), ev1) ∧
        excerptStage env post = .ok ex ∧
        categoryStage faults false st post = (.ok cid, st3, evc) ∧
        faults.postCreate post.slug = some e4)) :
    ∃ st2 evs,
      processOnePostF env faults false now st cnt post =
        (st2, { cnt with fail := cnt.fail + 1 }, evs) ∧
      st2.posts = st.posts ∧
      (∀ s, Event.createPost s ∉ evs) ∧
      importPostsF env faults false now st cnt (post :: rest) =
        ((importPostsF env faults false now st2 { cnt with fail := cnt.fail + 1 } rest).1,
         (importPostsF env faults false now st2 { cnt with fail := cnt.fail + 1 } rest).2.1,
         evs ++ (importPostsF env faults false now st2
                   { cnt with fail := cnt.fail + 1 } rest).2.2) := by
  rcases herr with ⟨e, ev1, hc⟩ | ⟨md, nf, ev1, e2, hc, hex⟩ |
    ⟨md, nf, ev1, ex, e3, st3, evc, hc, hex, hcat⟩ |
    ⟨md, nf, ev1, ex, cid, st3, evc, e4, hc, hex, hcat, hpc⟩
  · have step : processOnePostF env faults false now st cnt post =
        (st, { cnt with fail := cnt.fail + 1 },
         [Event.queryPostBySlug post.slug] ++ ev1) := by
      simp [processOnePostF, hfresh, hc]
    refine ⟨st, _, step, rfl, ?_, ?_⟩
    · intro s hs
      rcases List.mem_append.mp hs with hq | h1
      · simp at hq
      · have hm : Event.createPost s ∈ (convertContentToMarkdown env post.content post.title).2 := by
          rw [hc]; exact h1
        rcases convertContent_events env post.content post.title _ hm with h | ⟨w, h⟩ <;> cases h
    · exact importPostsF_cons env faults false now st cnt post rest _ _ _ step
  · have step : processOnePostF env faults false now st cnt post =
        (st, { cnt with fail := cnt.fail + 1 },
         [Event.queryPostBySlug post.slug] ++ ev1) := by
      simp [processOnePostF, hfresh, hc, hex]
    refine ⟨st, _, step, rfl, ?_, ?_⟩
    · intro s hs
      rcases List.mem_append.mp hs with hq | h1
      · simp at hq
      · have hm : Event.createPost s ∈ (convertContentToMarkdown env post.content post.title).2 := by
          rw [hc]; exact h1
        rcases convertContent_events env post.content post.title _ hm with h | ⟨w, h⟩ <;> cases h
    · exact importPostsF_cons env faults false now st cnt post rest _ _ _ step
  · have step : processOnePostF env faults false now st cnt post =
        (st3, { cnt with fail := cnt.fail + 1 },
         [Event.queryPostBySlug post.slug] ++ ev1 ++ evc) := by
      simp [processOnePostF, hfresh, hc, hex, hcat]
    have hposts : st3.posts = st.posts := by
      have hp := categoryStage_posts faults false st post
      rw [hcat] at hp
      exact hp
    refine ⟨st3, _, step, hposts, ?_, ?_⟩
    · intro s hs
      rcases List.mem_append.mp hs with hs2 | hcv
      · rcases List.mem_append.mp hs2 with hq | h1
        · simp at hq
        · have hm : Event.createPost s ∈
              (convertContentToMarkdown env post.content post.title).2 := by
            rw [hc]; exact h1
          rcases convertContent_events env post.content post.title _ hm with h | ⟨w, h⟩ <;> cases h
      · have hm : Event.createPost s ∈ (categoryStage faults false st post).2.2 := by
          rw [hcat]; exact hcv
        rcases categoryStage_events faults false st post _ hm with ⟨w, h⟩ | ⟨w, h⟩ <;> cases h
    · exact importPostsF_cons env faults false now st cnt post rest _ _ _ step
  · have step : processOnePostF env faults false now st cnt post =
        (st3, { cnt with fail := cnt.fail + 1 },
         [Event.queryPostBySlug post.slug] ++ ev1 ++ evc ++ (featuredStage env post).2.2) := by
      simp [processOnePostF, hfresh, hc, hex, hcat, hpc]
    have hposts : st3.posts = st.posts := by
      have hp := categoryStage_posts faults false st post
      rw [hcat] at hp
      exact hp
    refine ⟨st3, _, step, hposts, ?_, ?_⟩
    · intro s hs
      rcases List.mem_append.mp hs with hs2 | hf
      · rcases List.mem_append.mp hs2 with hs3 | hcv
        · rcases List.mem_append.mp hs3 with hq | h1
          · simp at hq
          · have hm : Event.createPost s ∈
                (convertContentToMarkdown env post.content post.title).2 := by
              rw [hc]; exact h1
            rcases convertContent_events env post.content post.title _ hm with h | ⟨w, h⟩ <;>
              cases h
        · have hm : Event.createPost s ∈ (categoryStage faults false st post).2.2 := by
            rw [hcat]; exact hcv
          rcases categoryStage_events faults false st post _ hm with ⟨w, h⟩ | ⟨w, h⟩ <;> cases h
      · rcases featuredStage_events env post _ hf with ⟨w, h⟩
        cases h
    · exact importPostsF_cons env faults false now st cnt post rest _ _ _ step

/-- Witness for C3 at a concrete run whose create-post mutation call
throws after every earlier stage succeeded. -/
theorem import_error_increments_fail_witness :
    ∃ st2 evs,
      processOnePostF envNull faultsCreate false 3 stEmpty cnt0 wpFresh =
        (st2, { cnt0 with fail := cnt0.fail + 1 }, evs) ∧
      st2.posts = stEmpty.posts ∧
      (∀ s, Event.createPost s ∉ evs) ∧
      importPostsF envNull faultsCreate false 3 stEmpty cnt0 [wpFresh] =
        ((importPostsF envNull faultsCreate false 3 st2
            { cnt0 with fail := cnt0.fail + 1 } []).1,
         (importPostsF envNull faultsCreate false 3 st2
            { cnt0 with fail := cnt0.fail + 1 } []).2.1,
         evs ++ (importPostsF envNull faultsCreate false 3 st2
                   { cnt0 with fail := cnt0.fail + 1 } []).2.2) := by
  exact import_error_increments_fail_and_continues envNull faultsCreate 3 stEmpty cnt0
    wpFresh [] rfl
    (Or.inr (Or.inr (Or.inr ⟨"<p>x</p>", 0, [Event.transformContent "T"], none, none,
      stEmpty, [], "network-down", rfl, rfl, rfl, rfl⟩)))

/-- ASCII lower-casing fixes slug characters and the hyphen. -/
theorem toLowerModel_id (c : Char) (h : isSlugChar c = true ∨ c = '-') :
    toLowerModel c = c := by
  rcases h with h | h
  · unfold isSlugChar at h
    simp only [Bool.or_eq_true, Bool.and_eq_true, decide_eq_true_eq] at h
    unfold toLowerModel
    rw [if_neg (by omega)]
  · subst h; decide

/-- ASCII lower-casing fixes a string of slug characters and hyphens. -/
theorem map_toLowerModel_id (l : List Char)
    (h : ∀ c ∈ l, isSlugChar c = true ∨ c = '-') : l.map toLowerModel = l := by
  induction l with
  | nil => rfl
  | cons c cs ih =>
    rw [List.map_cons, toLowerModel_id c (h c (by simp)),
      ih (fun d hd => h d (by simp [hd]))]

/-- One unfolding of the run-collapser at a slug character. -/
theorem collapseAux_cons_pos (inRun : Bool) (c : Char) (cs : List Char)
    (h : isSlugChar c = true) :
    collapseAux inRun (c :: cs) = c :: collapseAux false cs := by
  cases inRun <;> simp [collapseAux, h]

/-- One unfolding of the run-collapser at a hyphen outside a run. -/
theorem collapseAux_cons_hyphen (cs : List Char) :
    collapseAux false ('-' :: cs) = '-' :: collapseAux true cs := by
  have h : isSlugChar '-' = false := by decide
  simp [collapseAux, h]

/-- The run-collapsing substitution fixes a string of slug characters and
isolated non-trailing hyphens. -/
theorem collapseAux_id : ∀ (n : Nat) (l : List Char), l.length ≤ n →
    (∀ c ∈ l, isSlugChar c = true ∨ c = '-') →
    List.Chain' (fun a b => ¬(a = '-' ∧ b = '-')) l →
    l.getLast? ≠ some '-' →
    collapseAux false l = l := by
  intro n
  induction n with
  | zero =>
    intro l hl _ _ _
    have : l = [] := List.length_eq_zero.mp (Nat.le_zero.mp hl)
    subst this; rfl
  | succ n ih =>
    intro l hl hchars hadj hlast
    match l with
    | [] => rfl
    | [c] =>
      have hc : isSlugChar c = true := by
        rcases hchars c (by simp) with h | h
        · exact h
        · subst h; simp at hlast
      rw [collapseAux_cons_pos false c [] hc]
      rfl
    | c :: d :: rest =>
      rcases hchars c (by simp) with hc | hc
      · have hrec : collapseAux false (d :: rest) = d :: rest := by
          apply ih (d :: rest) (by simp at hl ⊢; omega)
            (fun e he => hchars e (by simp [he]))
            (List.chain'_cons.mp hadj).2
            (by rwa [List.getLast?_cons_cons] at hlast)
        rw [collapseAux_cons_pos false c (d :: rest) hc, hrec]
      · subst hc
        have hcc := List.chain'_cons.mp hadj
        have hd : d ≠ '-' := fun h => hcc.1 ⟨rfl, h⟩
        have hds : isSlugChar d = true := by
          rcases hchars d (by simp) with h | h
          · exact h
          · exact absurd h hd
        have hrec : collapseAux false rest = rest := by
          apply ih rest (by simp at hl ⊢; omega)
            (fun e he => hchars e (by simp [he]))
            hcc.2.tail
          cases rest with
          | nil => simp
          | cons e rest2 =>
            rw [List.getLast?_cons_cons, List.getLast?_cons_cons] at hlast
            exact hlast
        rw [collapseAux_cons_hyphen, collapseAux_cons_pos true d rest hds, hrec]

/-- Stripping boundary hyphens fixes a string with none. -/
theorem stripHyphens_id (l : List Char) (hhead : l.head? ≠ some '-')
    (hlast : l.getLast? ≠ some '-') : stripHyphens l = l := by
  unfold stripHyphens
  have h1 : l.dropWhile (· == '-') = l := by
    cases l with
    | nil => rfl
    | cons c cs =>
      have hc : (c == '-') = false := by
        simp only [List.head?_cons, ne_eq, Option.some.injEq] at hhead
        simp [hhead]
      simp [List.dropWhile_cons, hc]
  rw [h1]
  have h2 : l.reverse.dropWhile (· == '-') = l.reverse := by
    cases hr : l.reverse with
    | nil => rfl
    | cons c cs =>
      have hgl : l.getLast? = some c := by
        rw [← List.head?_reverse, hr, List.head?_cons]
      have hc : (c == '-') = false := by
        rw [hgl] at hlast
        simp only [ne_eq, Option.some.injEq] at hlast
        simp [hlast]
      simp [List.dropWhile_cons, hc]
  rw [h2, List.reverse_reverse]

/-- Bridge from the Boolean adjacent-pair check to the chain predicate. -/
theorem chain'_of_zipAll : ∀ (l : List Char),
    ((l.zip l.tail).all fun p => !(p.1 == '-' && p.2 == '-')) = true →
    List.Chain' (fun a b => ¬(a = '-' ∧ b = '-')) l
  | [], _ => List.chain'_nil
  | [c], _ => List.chain'_singleton c
  | a :: b :: rest, h => by
    simp only [List.tail_cons, List.zip_cons_cons, List.all_cons, Bool.and_eq_true] at h
    refine List.chain'_cons.mpr ⟨?_, chain'_of_zipAll (b :: rest) ?_⟩
    · intro hab
      have := h.1
      simp [hab.1, hab.2] at this
    · simpa using h.2

/-- C10: slug derivation is idempotent — on any string already in
canonical slug form it is the identity. -/
theorem slugify_idempotent_on_slugs (s : String) (h : isSlugB s = true) :
    slugify s = s := by
  unfold isSlugB at h
  simp only [Bool.and_eq_true] at h
  obtain ⟨⟨⟨hchars, hhead⟩, hlast⟩, hzip⟩ := h
  have hchars2 : ∀ c ∈ s.data, isSlugChar c = true ∨ c = '-' := by
    intro c hc
    have := List.all_eq_true.mp hchars c hc
    simp only [Bool.or_eq_true, beq_iff_eq] at this
    exact this
  have hhead2 : s.data.head? ≠ some '-' := by
    simpa using hhead
  have hlast2 : s.data.getLast? ≠ some '-' := by
    simpa using hlast
  have hadj := chain'_of_zipAll s.data hzip
  unfold slugify
  rw [map_toLowerModel_id _ hchars2,
    collapseAux_id s.data.length s.data le_rfl hchars2 hadj hlast2,
    stripHyphens_id _ hhead2 hlast2]

/-- Witness for C10 on a concrete slug string. -/
theorem slugify_idempotent_witness :
    isSlugB "case-studies" = true ∧ slugify "case-studies" = "case-studies" :=
  ⟨by decide, slugify_idempotent_on_slugs "case-studies" (by decide)⟩

/-- C7: the attachment index is built over the whole export before any
post is classified, so an eligible post whose thumbnail meta references an
indexed attachment identifier — wherever in the export the attachment
record sits — is parsed with its featured image resolved to the URL of the
attachment; and when the importer uploads that URL successfully, the
created document carries the resolved large-variant delivery URL. -/
theorem attachment_index_resolves_featured :
    (∀ (items : List WpItem) (it : WpItem) (t u : String),
       it ∈ items → isEligible it = true → thumbIdOf it = some t → t ≠ "" →
       alookup (buildAttachments items) t = some u →
       postOfItem (buildAttachments items) it ∈ (parseWordPressXML items).1 ∧
       (postOfItem (buildAttachments items) it).featuredImageUrl = some u) ∧
    (∀ (env : ImportEnv) (now : Nat) (st : ConvexState) (cnt : Counters)
       (wp : WordPressPost) (u imgId md : String) (nf : Nat) (ev1 : List Event),
       postsGetBySlug st.posts wp.slug = none →
       wp.featuredImageUrl = some u →
       strStartsWith u "http" = true →
       env.upload u wp.title = .ok imgId →
       convertContentToMarkdown env wp.content wp.title = (.ok (md, nf), ev1) →
       wp.excerpt = "" →
       wp.categories = [] →
       ∃ d, (processOnePost env false now st cnt wp).1.posts = st.posts ++ [d] ∧
         d.slug = wp.slug ∧
         d.featuredImage = some (env.getImageUrl imgId "large")) := by
  constructor
  · intro items it t u hmem helig hthumb htne halook
    constructor
    · have hposts : (parseWordPressXML items).1 =
          (items.filter isEligible).map (postOfItem (buildAttachments items)) := by
        unfold parseWordPressXML
        rw [parseFold_eq]
        simp
      rw [hposts]
      exact List.mem_map_of_mem _ (List.mem_filter.mpr ⟨hmem, helig⟩)
    · unfold postOfItem
      simp only []
      rw [hthumb]
      simp [htne, halook]
  · intro env now st cnt wp u imgId md nf ev1 hfresh hfi hs hup hconv hex hcats
    have hexs : excerptStage env wp = .ok none := by
      unfold excerptStage
      rw [if_pos hex]
    have hcs : categoryStage noFaults false st wp = (.ok none, st, []) := by
      simp [categoryStage, hcats]
    have hmig : migrateImage env u wp.title =
        (some (env.getImageUrl imgId "large"), [.uploadCall u]) := by
      unfold migrateImage
      rw [if_neg (by simp [hs]), hup]
    have hfs : featuredStage env wp =
        (some (env.getImageUrl imgId "large"), false, [.uploadCall u]) := by
      unfold featuredStage
      rw [hfi]
      simp only []
      rw [hmig]
    unfold processOnePost processOnePostF
    rw [hfresh]
    simp only [Bool.false_eq_true, if_false]
    rw [hconv]
    simp only []
    rw [hexs]
    simp only []
    rw [hcs]
    simp only [noFaults]
    rw [hfs]
    simp only []
    unfold postsCreate
    simp only [hfresh]
    exact ⟨_, rfl, rfl, rfl⟩

/-- Witness for C7: a two-item export where the attachment record comes
after the post that references it, then a live import of the parsed post. -/
theorem attachment_index_resolves_featured_witness :
    (postOfItem (buildAttachments [itemPost, itemAtt]) itemPost ∈
        (parseWordPressXML [itemPost, itemAtt]).1 ∧
      (postOfItem (buildAttachments [itemPost, itemAtt]) itemPost).featuredImageUrl =
        some "http://w/f.jpg") ∧
    (∃ d, (processOnePost envUp false 5 stEmpty cnt0
          (postOfItem (buildAttachments [itemPost, itemAtt]) itemPost)).1.posts =
        stEmpty.posts ++ [d] ∧
      d.slug = (postOfItem (buildAttachments [itemPost, itemAtt]) itemPost).slug ∧
      d.featuredImage = some (envUp.getImageUrl "id-http://w/f.jpg" "large")) :=
  ⟨attachment_index_resolves_featured.1 [itemPost, itemAtt] itemPost "9" "http://w/f.jpg"
      (by simp) (by decide) rfl (by decide) rfl,
   attachment_index_resolves_featured.2 envUp 5 stEmpty cnt0
      (postOfItem (buildAttachments [itemPost, itemAtt]) itemPost)
      "http://w/f.jpg" "id-http://w/f.jpg" "hello" 0 [Event.transformContent "P"]
      rfl rfl (by decide) rfl rfl rfl rfl⟩

/-- Characterization of a (wildcard) pattern match as a pointwise
condition on the window. -/
theorem matchesAtB_true_iff (pat s : List Char) (i : Nat) :
    matchesAtB pat s i = true ↔
      ∀ k, k < pat.length → ∃ p c, pat[k]? = some p ∧ s[i + k]? = some c ∧
        charMatch p c = true := by
  unfold matchesAtB
  rw [List.all_eq_true]
  constructor
  · intro h k hk
    have := h k (List.mem_range.mpr hk)
    cases hp : pat[k]? with
    | none => rw [hp] at this; simp at this
    | some p =>
      cases hs : s[i + k]? with
      | none => rw [hp, hs] at this; simp at this
      | some c =>
        rw [hp, hs] at this
        exact ⟨p, c, rfl, rfl, this⟩
  · intro h k hk
    obtain ⟨p, c, hp, hs, hm⟩ := h k (List.mem_range.mp hk)
    rw [hp, hs]
    exact hm

/-- Characterization of a literal occurrence. -/
theorem occursAtB_true_iff (u s : List Char) (i : Nat) :
    occursAtB u s i = true ↔ ∀ k, k < u.length → u[k]? = s[i + k]? := by
  unfold occursAtB
  rw [List.all_eq_true]
  constructor
  · intro h k hk
    have := h k (List.mem_range.mpr hk)
    exact beq_iff_eq.mp this
  · intro h k hk
    exact beq_iff_eq.mpr (h k (List.mem_range.mp hk))

/-- A non-empty pattern never matches past the end of the text. -/
theorem matchesAtB_of_le_length (pat s : List Char) (hp : pat ≠ []) (i : Nat)
    (hi : s.length ≤ i) : matchesAtB pat s i = false := by
  by_contra h
  have h2 := (matchesAtB_true_iff pat s i).mp (by revert h; cases matchesAtB pat s i <;> simp)
  obtain ⟨p, c, _, hs, _⟩ := h2 0 (by cases pat with | nil => exact absurd rfl hp | cons a l => simp)
  rw [List.getElem?_eq_none (by omega)] at hs
  cases hs

/-- Shifting a match across a front element. -/
theorem matchesAtB_cons_succ (pat : List Char) (c : Char) (t : List Char) (i : Nat) :
    matchesAtB pat (c :: t) (i + 1) = matchesAtB pat t i := by
  unfold matchesAtB
  congr 1
  funext k
  rw [show i + 1 + k = i + k + 1 by omega, List.getElem?_cons_succ]

/-- Shifting an occurrence across a front element. -/
theorem occursAtB_cons_succ (u : List Char) (c : Char) (t : List Char) (i : Nat) :
    occursAtB u (c :: t) (i + 1) = occursAtB u t i := by
  unfold occursAtB
  congr 1
  funext k
  rw [show i + 1 + k = i + k + 1 by omega, List.getElem?_cons_succ]

/-- Shifting a match across a dropped prefix. -/
theorem matchesAtB_append_right (pat rep R : List Char) (i : Nat)
    (h : rep.length ≤ i) :
    matchesAtB pat (rep ++ R) i = matchesAtB pat R (i - rep.length) := by
  unfold matchesAtB
  congr 1
  funext k
  rw [List.getElem?_append_right (by omega),
    show i + k - rep.length = i - rep.length + k by omega]

/-- Shifting an occurrence across a dropped prefix. -/
theorem occursAtB_drop (u s : List Char) (n i : Nat) (h : n ≤ i) :
    occursAtB u (s.drop n) (i - n) = occursAtB u s i := by
  unfold occursAtB
  congr 1
  funext k
  rw [List.getElem?_drop, show n + (i - n + k) = i + k by omega]

/-- Shifting an occurrence behind an appended prefix. -/
theorem occursAtB_append_left (u rep R : List Char) (j : Nat) :
    occursAtB u (rep ++ R) (rep.length + j) = occursAtB u R j := by
  unfold occursAtB
  congr 1
  funext k
  rw [List.getElem?_append_right (by omega),
    show rep.length + j + k - rep.length = j + k by omega]

/-- A text with no match keeps having none after prepending replacement
text whose characters can never be matched by the pattern. -/
theorem noMatch_append (pat rep R : List Char) (hp : pat ≠ [])
    (hd : ∀ c ∈ rep, ∀ p ∈ pat, charMatch p c = false)
    (hR : ∀ i, matchesAtB pat R i = false) :
    ∀ i, matchesAtB pat (rep ++ R) i = false := by
  intro i
  by_cases hi : i < rep.length
  · by_contra h
    have h2 := (matchesAtB_true_iff pat (rep ++ R) i).mp
      (by revert h; cases matchesAtB pat (rep ++ R) i <;> simp)
    obtain ⟨p, c, hpk, hsk, hm⟩ := h2 0
      (by cases pat with | nil => exact absurd rfl hp | cons a l => simp)
    rw [Nat.add_zero, List.getElem?_append_left hi] at hsk
    exact absurd hm (by
      rw [hd c (List.getElem?_mem hsk) p (List.getElem?_mem hpk)]
      simp)
  · rw [matchesAtB_append_right pat rep R i (by omega)]
    exact hR _

/-- Shape of one replacement pass: either the text is returned unchanged,
or the result is an unchanged prefix up to some match position followed by
the replacement text. -/
theorem replAux_shape (pat rep : List Char) :
    ∀ (fuel : Nat) (s : List Char),
      replAux pat rep fuel s = s ∨
      ∃ m rest, m ≤ s.length ∧ matchesAtB pat s m = true ∧
        replAux pat rep fuel s = s.take m ++ rep ++ rest := by
  intro fuel
  induction fuel with
  | zero => intro s; exact Or.inl rfl
  | succ n ih =>
    intro s
    match s with
    | [] => exact Or.inl rfl
    | c :: t =>
      by_cases hm : matchesAtB pat (c :: t) 0 = true
      · refine Or.inr ⟨0, replAux pat rep n ((c :: t).drop pat.length), by omega, hm, ?_⟩
        simp only [replAux, hm, if_pos]
        rfl
      · have hstep : replAux pat rep (n + 1) (c :: t) = c :: replAux pat rep n t := by
          simp only [replAux]
          rw [if_neg hm]
        rcases ih t with h | ⟨m, rest, hm2, hmt, hsh⟩
        · exact Or.inl (by rw [hstep, h])
        · refine Or.inr ⟨m + 1, rest, by simp; omega, ?_, ?_⟩
          · rw [matchesAtB_cons_succ]
            exact hmt
          · rw [hstep, hsh, List.take_succ_cons]
            rfl

/-- Core theorem of the global substitution: when the replacement text
contains no character the pattern could match, the scan output contains no
match of the pattern at any position. -/
theorem replAux_noMatch (pat rep : List Char) (hp : pat ≠ []) (hrep : rep ≠ [])
    (hd : ∀ c ∈ rep, ∀ p ∈ pat, charMatch p c = false) :
    ∀ (fuel : Nat) (s : List Char), s.length ≤ fuel →
      ∀ i, matchesAtB pat (replAux pat rep fuel s) i = false := by
  have hL : 1 ≤ pat.length := by
    cases pat with
    | nil => exact absurd rfl hp
    | cons a l => simp
  intro fuel
  induction fuel with
  | zero =>
    intro s hs i
    have hnil : s = [] := List.length_eq_zero.mp (Nat.le_zero.mp hs)
    subst hnil
    exact matchesAtB_of_le_length pat [] hp i (by simp)
  | succ n ih =>
    intro s hs i
    match s with
    | [] => exact matchesAtB_of_le_length pat [] hp i (by simp)
    | c :: t =>
      by_cases hm : matchesAtB pat (c :: t) 0 = true
      · have hstep : replAux pat rep (n + 1) (c :: t) =
            rep ++ replAux pat rep n ((c :: t).drop pat.length) := by
          simp only [replAux]
          rw [if_pos hm]
        rw [hstep]
        apply noMatch_append pat rep _ hp hd
        apply ih
        simp only [List.length_drop, List.length_cons]
        simp only [List.length_cons] at hs
        omega
      · have hstep : replAux pat rep (n + 1) (c :: t) = c :: replAux pat rep n t := by
          simp only [replAux]
          rw [if_neg hm]
        rw [hstep]
        have iht : ∀ j, matchesAtB pat (replAux pat rep n t) j = false := by
          intro j
          apply ih t _ j
          simp only [List.length_cons] at hs
          omega
        match i with
        | i2 + 1 =>
          rw [matchesAtB_cons_succ]
          exact iht i2
        | 0 =>
          rcases replAux_shape pat rep n t with hsh | ⟨m, rest, hmle, hmt, hsh⟩
          · rw [hsh]
            exact Bool.not_eq_true _ |>.mp hm |> fun h => by
              revert hm; cases hmm : matchesAtB pat (c :: t) 0 <;> simp
          · have hfail0 : ¬ ∀ k, k < pat.length → ∃ p ck, pat[k]? = some p ∧
                (c :: t)[0 + k]? = some ck ∧ charMatch p ck = true :=
              fun hh => hm ((matchesAtB_true_iff _ _ _).mpr hh)
            push_neg at hfail0
            obtain ⟨k, hkL, hkfail⟩ := hfail0
            by_contra hcon
            have hgoal := (matchesAtB_true_iff pat
                (c :: replAux pat rep n t) 0).mp
              (by revert hcon; cases matchesAtB pat (c :: replAux pat rep n t) 0 <;> simp)
            match k with
            | 0 =>
              obtain ⟨p, c0, hp0, hc0, hcm0⟩ := hgoal 0 (by omega)
              simp only [Nat.add_zero, List.getElem?_cons_zero] at hc0
              have hx := hkfail p c (by simpa using hp0)
                (by simp)
              rw [Option.some.injEq] at hc0
              subst hc0
              exact absurd hcm0 (by simp [hx])
            | k2 + 1 =>
              by_cases hkm : k2 < m
              · have hk2t : k2 < t.length := by omega
                have htk : t[k2]? = some t[k2] := List.getElem?_eq_getElem hk2t
                obtain ⟨p, ck, hpk2, hsk2, hcm2⟩ := hgoal (k2 + 1) hkL
                simp only [Nat.zero_add, List.getElem?_cons_succ] at hsk2
                rw [hsh] at hsk2
                have hlt : k2 < (t.take m).length := by
                  rw [List.length_take]
                  omega
                rw [List.append_assoc, List.getElem?_append_left hlt,
                  List.getElem?_take, if_pos hkm, htk] at hsk2
                have hx := hkfail p t[k2] hpk2
                  (by rw [Nat.zero_add, List.getElem?_cons_succ, htk])
                rw [Option.some.injEq] at hsk2
                subst hsk2
                exact absurd hcm2 hx
              · obtain ⟨p, cm, hpm, hsm, hcmm⟩ := hgoal (m + 1) (by omega)
                simp only [Nat.zero_add, List.getElem?_cons_succ] at hsm
                rw [hsh] at hsm
                have hlen : (t.take m).length = m := by
                  rw [List.length_take]
                  omega
                rw [List.append_assoc,
                  List.getElem?_append_right (by rw [hlen]), hlen,
                  Nat.sub_self] at hsm
                have hreplen : 0 < rep.length := by
                  cases rep with
                  | nil => exact absurd rfl hrep
                  | cons a l => simp
                rw [List.getElem?_append_left hreplen] at hsm
                exact absurd hcmm
                  (by rw [hd cm (List.getElem?_mem hsm) p (List.getElem?_mem hpm)]; simp)

/-- Survival of a foreign substring: a string none of whose characters the
pattern can match still occurs in the output of one replacement pass. -/
theorem replAux_occurs (pat rep u : List Char) (hp : pat ≠ [])
    (hd : ∀ c ∈ u, ∀ p ∈ pat, charMatch p c = false) :
    ∀ (fuel : Nat) (s : List Char), s.length ≤ fuel →
      ∀ i, occursAtB u s i = true →
        ∃ j, occursAtB u (replAux pat rep fuel s) j = true := by
  by_cases hu : u = []
  · subst hu
    intro fuel s _ i _
    exact ⟨0, by simp [occursAtB]⟩
  have huL : 1 ≤ u.length := by
    cases u with
    | nil => exact absurd rfl hu
    | cons a l => simp
  have hpL : 1 ≤ pat.length := by
    cases pat with
    | nil => exact absurd rfl hp
    | cons a l => simp
  intro fuel
  induction fuel with
  | zero =>
    intro s hs i hi
    have hnil : s = [] := List.length_eq_zero.mp (Nat.le_zero.mp hs)
    subst hnil
    exact ⟨i, hi⟩
  | succ n ih =>
    intro s hs i hi
    match s with
    | [] => exact ⟨i, hi⟩
    | c :: t =>
      by_cases hm : matchesAtB pat (c :: t) 0 = true
      · have hstep : replAux pat rep (n + 1) (c :: t) =
            rep ++ replAux pat rep n ((c :: t).drop pat.length) := by
          simp only [replAux]
          rw [if_pos hm]
        have hiL : pat.length ≤ i := by
          by_contra hlt
          push_neg at hlt
          obtain ⟨p, ci, hpi, hsi, hci⟩ := (matchesAtB_true_iff pat (c :: t) 0).mp hm i hlt
          have h0 := (occursAtB_true_iff u (c :: t) i).mp hi 0 (by omega)
          rw [Nat.add_zero] at h0
          rw [Nat.zero_add] at hsi
          have hciu : ci ∈ u := List.getElem?_mem (h0.trans hsi)
          exact absurd hci (by rw [hd ci hciu p (List.getElem?_mem hpi)]; simp)
        have hocc2 : occursAtB u ((c :: t).drop pat.length) (i - pat.length) = true := by
          rw [occursAtB_drop u (c :: t) pat.length i hiL]
          exact hi
        obtain ⟨j, hj⟩ := ih ((c :: t).drop pat.length)
          (by
            simp only [List.length_drop, List.length_cons]
            simp only [List.length_cons] at hs
            omega)
          (i - pat.length) hocc2
        refine ⟨rep.length + j, ?_⟩
        rw [hstep, occursAtB_append_left]
        exact hj
      · have hstep : replAux pat rep (n + 1) (c :: t) = c :: replAux pat rep n t := by
          simp only [replAux]
          rw [if_neg hm]
        match i with
        | i2 + 1 =>
          rw [occursAtB_cons_succ] at hi
          obtain ⟨j, hj⟩ := ih t (by simp only [List.length_cons] at hs; omega) i2 hi
          refine ⟨j + 1, ?_⟩
          rw [hstep, occursAtB_cons_succ]
          exact hj
        | 0 =>
          refine ⟨0, ?_⟩
          rw [hstep, occursAtB_true_iff]
          intro k hk
          have horig := (occursAtB_true_iff u (c :: t) 0).mp hi
          match k with
          | 0 =>
            have h0 := horig 0 hk
            simp only [Nat.add_zero, Nat.zero_add, List.getElem?_cons_zero] at h0 ⊢
            exact h0
          | k2 + 1 =>
            have horigk := horig (k2 + 1) hk
            simp only [Nat.zero_add, List.getElem?_cons_succ] at horigk ⊢
            rcases replAux_shape pat rep n t with hsh | ⟨m, rest, hmle, hmt, hsh⟩
            · rw [hsh]
              exact horigk
            · have hmge : u.length - 1 ≤ m := by
                by_contra hlt2
                push_neg at hlt2
                obtain ⟨p, cm, hpm, hsm, hcm⟩ :=
                  (matchesAtB_true_iff pat t m).mp hmt 0 (by omega)
                rw [Nat.add_zero] at hsm
                have horigm := horig (m + 1) (by omega)
                simp only [Nat.zero_add, List.getElem?_cons_succ] at horigm
                have hcmu : cm ∈ u := List.getElem?_mem (horigm.trans hsm)
                exact absurd hcm (by rw [hd cm hcmu p (List.getElem?_mem hpm)]; simp)
              have hk2m : k2 < m := by omega
              rw [hsh, List.append_assoc,
                List.getElem?_append_left (by rw [List.length_take]; omega),
                List.getElem?_take, if_pos hk2m]
              exact horigk

/-- A literal occurrence is in particular a wildcard match. -/
theorem matchesAtB_of_occursAtB (u s : List Char) (i : Nat)
    (h : occursAtB u s i = true) : matchesAtB u s i = true := by
  rw [matchesAtB_true_iff]
  intro k hk
  have hks := (occursAtB_true_iff u s i).mp h k hk
  refine ⟨u[k], u[k], List.getElem?_eq_getElem hk, ?_, ?_⟩
  · rw [← hks]
    exact List.getElem?_eq_getElem hk
  · simp [charMatch]

/-- The failure counter of the image-migration loop counts exactly the
extracted occurrences whose migration failed. -/
theorem buildImageMapping_count (env : ImportEnv) (title : String) :
    ∀ (urls : List String) (acc : List (String × String) × Nat × List Event),
      (urls.foldl (imageStep env title) acc).2.1 =
        acc.2.1 +
          (urls.filter (fun w => ((migrateImage env w title).1).isNone)).length := by
  intro urls
  induction urls with
  | nil => intro acc; simp
  | cons w ws ih =>
    intro acc
    rw [List.foldl_cons, List.filter_cons]
    cases hmig : migrateImage env w title with
    | mk r ev =>
      cases r with
      | some nu =>
        have hstep : imageStep env title acc w =
            (upsert acc.1 w nu, acc.2.1, acc.2.2 ++ ev) := by
          unfold imageStep
          rw [hmig]
        rw [hstep, ih]
        simp [hmig]
      | none =>
        have hstep : imageStep env title acc w =
            (acc.1, acc.2.1 + 1, acc.2.2 ++ ev) := by
          unfold imageStep
          rw [hmig]
        rw [hstep, ih]
        simp [hmig]
        omega

/-- An upsert of another key keeps an absent key absent. -/
theorem upsert_alookup_none (m : List (String × String)) (w v u : String)
    (hne : u ≠ w) (h : alookup m u = none) : alookup (upsert m w v) u = none := by
  unfold upsert
  unfold alookup at h ⊢
  rw [Option.map_eq_none'] at h ⊢
  rw [List.find?_eq_none] at h ⊢
  by_cases hmem : m.any (fun p => p.1 == w)
  · rw [if_pos hmem]
    intro q hq
    obtain ⟨p0, hp0, hp0q⟩ := List.mem_map.mp hq
    by_cases hw : p0.1 == w
    · rw [if_pos hw] at hp0q
      subst hp0q
      simp [Ne.symm hne]
    · rw [if_neg hw] at hp0q
      subst hp0q
      exact h p0 hp0
  · rw [if_neg hmem]
    intro q hq
    rcases List.mem_append.mp hq with hq | hq
    · exact h q hq
    · simp at hq
      subst hq
      simp [Ne.symm hne]

/-- A URL whose migration fails never enters the replacement mapping. -/
theorem buildImageMapping_fail_absent (env : ImportEnv) (title u : String)
    (hfail : (migrateImage env u title).1 = none) :
    ∀ (urls : List String) (acc : List (String × String) × Nat × List Event),
      alookup acc.1 u = none →
      alookup (urls.foldl (imageStep env title) acc).1 u = none := by
  intro urls
  induction urls with
  | nil => intro acc h; exact h
  | cons w ws ih =>
    intro acc h
    rw [List.foldl_cons]
    apply ih
    cases hmig : migrateImage env w title with
    | mk r ev =>
      cases r with
      | some nu =>
        have hstep : imageStep env title acc w =
            (upsert acc.1 w nu, acc.2.1, acc.2.2 ++ ev) := by
          unfold imageStep
          rw [hmig]
        rw [hstep]
        have hne : u ≠ w := by
          intro he
          subst he
          rw [hmig] at hfail
          cases hfail
        exact upsert_alookup_none acc.1 w nu u hne h
      | none =>
        have hstep : imageStep env title acc w =
            (acc.1, acc.2.1 + 1, acc.2.2 ++ ev) := by
          unfold imageStep
          rw [hmig]
        rw [hstep]
        exact h

/-- Lift of the no-match theorem to one string replacement. -/
theorem replaceUrlG_noMatch (s pat rep : String) (hp : pat.data ≠ [])
    (hrep : rep.data ≠ [])
    (hd : ∀ c ∈ rep.data, ∀ p ∈ pat.data, charMatch p c = false) :
    ∀ i, matchesAtB pat.data (replaceUrlG s pat rep).data i = false := by
  intro i
  unfold replaceUrlG replaceG
  rw [if_neg hp]
  exact replAux_noMatch pat.data rep.data hp hrep hd s.data.length s.data le_rfl i

/-- Lift of the survival theorem to one string replacement. -/
theorem replaceUrlG_occurs (s pat rep u : String) (hp : pat.data ≠ [])
    (hd : ∀ c ∈ u.data, ∀ p ∈ pat.data, charMatch p c = false)
    (i : Nat) (hi : occursAtB u.data s.data i = true) :
    ∃ j, occursAtB u.data (replaceUrlG s pat rep).data j = true := by
  unfold replaceUrlG replaceG
  rw [if_neg hp]
  exact replAux_occurs pat.data rep.data u.data hp hd s.data.length s.data le_rfl i hi

/-- Survival of a foreign substring through the whole replacement loop. -/
theorem applyMapping_occurs (u : String) :
    ∀ (mapping : List (String × String)) (html : String),
      (∀ q ∈ mapping, q.1.data ≠ [] ∧
        ∀ c ∈ u.data, ∀ p ∈ q.1.data, charMatch p c = false) →
      (∃ i, occursAtB u.data html.data i = true) →
      ∃ j, occursAtB u.data (applyMapping mapping html).data j = true := by
  intro mapping
  induction mapping with
  | nil =>
    intro html _ h
    exact h
  | cons q qs ih =>
    intro html hd ⟨i, hi⟩
    have hstep : applyMapping (q :: qs) html = applyMapping qs (applyEntry html q) :=
      rfl
    rw [hstep]
    obtain ⟨hq1, hq2⟩ := hd q (by simp)
    obtain ⟨j, hj⟩ := replaceUrlG_occurs html q.1 q.2 u hq1 hq2 i hi
    exact ih (applyEntry html q) (fun r hr => hd r (by simp [hr])) ⟨j, hj⟩

/-- C8 counterexample: two overlapping URLs are both migrated, yet after
the sequential global substitutions the occurrence of the longer URL has
been garbled by the replacement of the shorter one instead of being
replaced by its own delivery URL, which is absent from the output. -/
theorem replace_interference_counterexample :
    (buildImageMapping envTwo "T" (extractImageUrls htmlUV)).1 =
      [("httpu", "AA"), ("httpuv", "BB")] ∧
    containsSubB "httpuv".data htmlUV.data = true ∧
    containsSubB "BB".data
      (applyMapping (buildImageMapping envTwo "T" (extractImageUrls htmlUV)).1
        htmlUV).data = false ∧
    containsSubB "httpuv".data
      (applyMapping (buildImageMapping envTwo "T" (extractImageUrls htmlUV)).1
        htmlUV).data = false :=
  ⟨rfl, rfl, rfl, rfl⟩

/-- C8 (amended): when no extracted URL is migrated, the content reaches
the markup converter unchanged; and when the mapping holds a single
migrated URL that carries no regex metacharacter other than the dot (so
the RegExp compiled from it matches exactly as the charMatch model) and
whose replacement shares no matchable character with it, the substituted
content contains no occurrence (not even a wildcard match) of the old
URL — every occurrence was replaced. -/
theorem global_substitution_amended (env : ImportEnv) (html title : String) :
    ((buildImageMapping env title (extractImageUrls html)).1 = [] →
      applyMapping (buildImageMapping env title (extractImageUrls html)).1 html = html) ∧
    (∀ u nu, (buildImageMapping env title (extractImageUrls html)).1 = [(u, nu)] →
      u.data ≠ [] → nu.data ≠ [] → regexSafe u = true →
      (∀ c ∈ nu.data, ∀ p ∈ u.data, charMatch p c = false) →
      ∀ i, occursAtB u.data
        (applyMapping (buildImageMapping env title (extractImageUrls html)).1
          html).data i = false) := by
  constructor
  · intro h
    rw [h]
    rfl
  · intro u nu hmap hu hnu hsafe hd i
    rw [hmap]
    have hstep : applyMapping [(u, nu)] html = replaceUrlG html u nu := rfl
    rw [hstep]
    have hnm := replaceUrlG_noMatch html u nu hu hnu hd i
    by_contra hocc
    have hocc2 : occursAtB u.data (replaceUrlG html u nu).data i = true := by
      revert hocc
      cases occursAtB u.data (replaceUrlG html u nu).data i <;> simp
    rw [matchesAtB_of_occursAtB _ _ _ hocc2] at hnm
    cases hnm

/-- Witness for C8: a single migrated URL with a disjoint replacement is
eliminated from the content, and an all-failing run leaves it unchanged. -/
theorem global_substitution_witness :
    (applyMapping (buildImageMapping envNull "T"
        (extractImageUrls "<img a src=\"x-img\">")).1 "<img a src=\"x-img\">" =
      "<img a src=\"x-img\">") ∧
    ∀ i, occursAtB "httpz".data
      (applyMapping (buildImageMapping envUp2 "T"
        (extractImageUrls "<img a src=\"httpz\"> httpz end")).1
        "<img a src=\"httpz\"> httpz end").data i = false :=
  ⟨(global_substitution_amended envNull "<img a src=\"x-img\">" "T").1 rfl,
   (global_substitution_amended envUp2 "<img a src=\"httpz\"> httpz end" "T").2
     "httpz" "KM" rfl (by decide) (by decide) (by decide) (by decide)⟩

/-- C5 counterexample: an inline image whose upload fails still loses its
original URL from the content handed to the converter, because the
replacement of another, overlapping migrated URL rewrites through it. -/
theorem inline_image_failure_counterexample :
    (migrateImage envIntf "httpuv" "T").1 = none ∧
    "httpuv" ∈ extractImageUrls htmlUV ∧
    containsSubB "httpuv".data htmlUV.data = true ∧
    containsSubB "httpuv".data
      (applyMapping (buildImageMapping envIntf "T" (extractImageUrls htmlUV)).1
        htmlUV).data = false :=
  ⟨rfl, by decide, rfl, rfl⟩

/-- C5 (amended): a failed inline-image upload counts exactly one failure
per failed occurrence, never enters the replacement mapping, leaves the
original URL in the content handed to the converter provided no other
migrated URL can match across it, and never blocks creation of the post:
the importer still creates it, bumping the success and image-failure
counters. -/
theorem inline_image_failure_nonblocking (env : ImportEnv) (now : Nat)
    (st : ConvexState) (cnt : Counters) (post : WordPressPost) (u : String)
    (hu : u ∈ extractImageUrls post.content)
    (hfail : (migrateImage env u post.title).1 = none) :
    (buildImageMapping env post.title (extractImageUrls post.content)).2.1 =
      ((extractImageUrls post.content).filter
        (fun w => ((migrateImage env w post.title).1).isNone)).length ∧
    0 < (buildImageMapping env post.title (extractImageUrls post.content)).2.1 ∧
    alookup (buildImageMapping env post.title (extractImageUrls post.content)).1 u = none ∧
    ((∀ q ∈ (buildImageMapping env post.title (extractImageUrls post.content)).1,
        q.1.data ≠ [] ∧ ∀ c ∈ u.data, ∀ p ∈ q.1.data, charMatch p c = false) →
      (∃ i, occursAtB u.data post.content.data i = true) →
      ∃ j, occursAtB u.data
        (applyMapping (buildImageMapping env post.title
          (extractImageUrls post.content)).1 post.content).data j = true) ∧
    (∀ md, postsGetBySlug st.posts post.slug = none →
      env.turndown (applyMapping (buildImageMapping env post.title
        (extractImageUrls post.content)).1 post.content) = .ok md →
      post.excerpt = "" → post.categories = [] → post.featuredImageUrl = none →
      (processOnePost env false now st cnt post).2.1.success = cnt.success + 1 ∧
      (processOnePost env false now st cnt post).2.1.imageFail = cnt.imageFail + 1 ∧
      Event.createPost post.slug ∈ (processOnePost env false now st cnt post).2.2) := by
  have hcount : (buildImageMapping env post.title (extractImageUrls post.content)).2.1 =
      ((extractImageUrls post.content).filter
        (fun w => ((migrateImage env w post.title).1).isNone)).length := by
    have h := buildImageMapping_count env post.title (extractImageUrls post.content) ([], 0, [])
    simpa [buildImageMapping] using h
  have hpos : 0 < (buildImageMapping env post.title (extractImageUrls post.content)).2.1 := by
    rw [hcount]
    have hmem : u ∈ (extractImageUrls post.content).filter
        (fun w => ((migrateImage env w post.title).1).isNone) :=
      List.mem_filter.mpr ⟨hu, by rw [hfail]; rfl⟩
    cases hfl : (extractImageUrls post.content).filter
        (fun w => ((migrateImage env w post.title).1).isNone) with
    | nil => rw [hfl] at hmem; cases hmem
    | cons a l => simp [hfl]
  refine ⟨hcount, hpos, ?_, ?_, ?_⟩
  · exact buildImageMapping_fail_absent env post.title u hfail
      (extractImageUrls post.content) ([], 0, []) rfl
  · intro hd hocc
    exact applyMapping_occurs u _ post.content hd hocc
  · intro md hfresh hturn hex hcats hfi
    have hconv : convertContentToMarkdown env post.content post.title =
        (.ok (md, (buildImageMapping env post.title (extractImageUrls post.content)).2.1),
         Event.transformContent post.title ::
           (buildImageMapping env post.title (extractImageUrls post.content)).2.2) := by
      unfold convertContentToMarkdown
      rw [hturn]
    have hexs : excerptStage env post = .ok none := by
      unfold excerptStage
      rw [if_pos hex]
    have hcs : categoryStage noFaults false st post = (.ok none, st, []) := by
      simp [categoryStage, hcats]
    have hfs : featuredStage env post = (none, false, []) := by
      unfold featuredStage
      rw [hfi]
    unfold processOnePost processOnePostF
    rw [hfresh]
    simp only [Bool.false_eq_true, if_false]
    rw [hconv]
    simp only []
    rw [hexs]
    simp only []
    rw [hcs]
    simp only [noFaults]
    rw [hfs]
    simp only []
    unfold postsCreate
    simp only [hfresh]
    have hcond : (false || decide
        (0 < (buildImageMapping env post.title (extractImageUrls post.content)).2.1)) = true := by
      simp [hpos]
    simp only [hcond, if_pos]
    refine ⟨trivial, trivial, ?_⟩
    simp

/-- Witness for C5: a concrete post with one failing inline image is still
created, the failure is counted, and the URL survives in the content. -/
theorem inline_image_failure_witness :
    0 < (buildImageMapping envNull wpImg.title (extractImageUrls wpImg.content)).2.1 ∧
    alookup (buildImageMapping envNull wpImg.title
      (extractImageUrls wpImg.content)).1 "x-img" = none ∧
    (∃ j, occursAtB "x-img".data
      (applyMapping (buildImageMapping envNull wpImg.title
        (extractImageUrls wpImg.content)).1 wpImg.content).data j = true) ∧
    (processOnePost envNull false 5 stEmpty cnt0 wpImg).2.1.success = cnt0.success + 1 ∧
    (processOnePost envNull false 5 stEmpty cnt0 wpImg).2.1.imageFail = cnt0.imageFail + 1 ∧
    Event.createPost wpImg.slug ∈ (processOnePost envNull false 5 stEmpty cnt0 wpImg).2.2 := by
  have h := inline_image_failure_nonblocking envNull 5 stEmpty cnt0 wpImg "x-img"
    (by decide) rfl
  have hsurv := h.2.2.2.1 (by intro q hq; rw [show (buildImageMapping envNull wpImg.title
      (extractImageUrls wpImg.content)).1 = [] from rfl] at hq; cases hq)
    ⟨12, by decide⟩
  have hcreated := h.2.2.2.2
    (applyMapping (buildImageMapping envNull wpImg.title
      (extractImageUrls wpImg.content)).1 wpImg.content) rfl rfl rfl rfl rfl
  exact ⟨h.2.1, h.2.2.1, hsurv, hcreated.1, hcreated.2.1, hcreated.2.2⟩
